import Mathlib

/-!
# Verification of the MultiQC bcl2fastq aggregation module

A shallow embedding of `multiqc/modules/bcl2fastq/bcl2fastq.py`.

Python `dict`s (which preserve insertion order and update values in place)
are modelled as association lists `List (String × β)` with a `lookup` that
returns the first binding and an `upsert` that updates an existing binding
in place or appends a fresh one at the end.  Fatal runtime errors
(`KeyError`, `ZeroDivisionError`) are modelled by `Option`-valued
functions returning `none`; the non-fatal `UserWarning` exit is a
distinguished constructor of the module result.  Log diagnostics are
returned explicitly as a list of strings.
-/

namespace Bcl2Fastq

/-- First binding for a key in an association list (Python `d[k]` read). -/
def lookup {β : Type} : List (String × β) → String → Option β
  | [], _ => none
  | p :: rest, k => if p.1 = k then some p.2 else lookup rest k

/-- Python `d[k] = v`: overwrite the binding in place if the key is
present, otherwise append it at the end (insertion order). -/
def upsert {β : Type} (k : String) (v : β) : List (String × β) → List (String × β)
  | [] => [(k, v)]
  | p :: rest => if p.1 = k then (k, v) :: rest else p :: upsert k v rest

/-! ## Input data model

The fields the module reads from the bcl2fastq JSON report.  The spec
treats a missing required field as a fatal, out-of-scope operator error,
so the well-formed fields are represented directly. -/

/-- One entry of `DemuxResults[].IndexMetrics`; `mismatchCounts0` is the
required `MismatchCounts["0"]` count. -/
structure IndexMetric where
  mismatchCounts0 : Nat
  deriving DecidableEq, Repr

/-- One entry of `ConversionResults[].DemuxResults`. -/
structure DemuxResult where
  sampleName : String
  numberReads : Nat
  indexMetrics : List IndexMetric
  deriving DecidableEq, Repr

/-- One entry of `ConversionResults` (one lane);
`undeterminedNumberReads` is `Undetermined.NumberReads`. -/
structure ConversionResult where
  laneNumber : Nat
  undeterminedNumberReads : Nat
  demuxResults : List DemuxResult
  deriving DecidableEq, Repr

/-- A parsed JSON document. -/
structure ReportContent where
  runId : String
  conversionResults : List ConversionResult
  deriving DecidableEq, Repr

/-- One discovered log file: metadata plus its content.  `content = none`
models a file body that fails JSON parsing (`json.loads` raising
`ValueError`); `content = some c` models a successful parse. -/
structure InputFile where
  root : String
  fn : String
  content : Option ReportContent
  deriving DecidableEq, Repr

/-! ## Internal per-run data tree (`self.bcl2fastq_data`) -/

/-- Value of `run_data[lane]["samples"][sample]`.  The synthetic
`"undetermined"` entry has no `"filename"` key, hence `Option`. -/
structure SampleData where
  total : Nat
  perfectIndex : Nat
  filename : Option String
  deriving DecidableEq, Repr

/-- Value of `run_data[lane]`. -/
structure LaneData where
  total : Nat
  perfectIndex : Nat
  samples : List (String × SampleData)
  deriving DecidableEq, Repr

/-- `self.bcl2fastq_data[runId]`: lane key (`"L<n>"`) to lane record. -/
abbrev RunData : Type := List (String × LaneData)

/-- `self.bcl2fastq_data`: run id to run tree. -/
abbrev Bcl2FastqData : Type := List (String × RunData)

/-- `prepend_runid`: qualified display key `"<runId> - <rest>"`. -/
def prepend_runid (runId rest : String) : String :=
  runId ++ " - " ++ rest

/-- The lane key `'L{}'.format(conversionResult["LaneNumber"])`. -/
def laneKey (n : Nat) : String :=
  "L" ++ toString n

/-- `os.path.join(myfile['root'], myfile["fn"])` for the usual cases. -/
def pathJoin (root fn : String) : String :=
  if root = "" then fn
  else if root.data.getLast? = some '/' then root ++ fn
  else root ++ "/" ++ fn

/-- Sum of `MismatchCounts["0"]` over a demux result's `IndexMetrics`. -/
def sumMismatch0 (ims : List IndexMetric) : Nat :=
  (ims.map IndexMetric.mismatchCounts0).sum

/-- The inner `for demuxResult in conversionResult["DemuxResults"]` body:
reset the sample's record (overwriting any earlier entry of the same
name), then add the reads to the lane and sample totals and the
zero-mismatch counts to the lane and sample perfect-index counts. -/
def processDemux (filename : String) (acc : LaneData) (d : DemuxResult) : LaneData :=
  { total := acc.total + d.numberReads
    perfectIndex := acc.perfectIndex + sumMismatch0 d.indexMetrics
    samples := upsert d.sampleName
      { total := d.numberReads
        perfectIndex := sumMismatch0 d.indexMetrics
        filename := some filename } acc.samples }

/-- Build the fresh lane record for one `ConversionResults` entry:
start from `{"total": 0, "perfectIndex": 0, "samples": {}}`, process all
demux results, then set the synthetic `"undetermined"` sample entry. -/
def buildLane (filename : String) (cr : ConversionResult) : LaneData :=
  let ld := cr.demuxResults.foldl (processDemux filename) ⟨0, 0, []⟩
  { ld with
    samples := upsert "undetermined"
      { total := cr.undeterminedNumberReads, perfectIndex := 0, filename := none }
      ld.samples }

/-- The log line emitted when a run already has the lane being written. -/
def dupLaneMsg (runId lane : String) : String :=
  "Duplicate runId/lane combination found! Overwriting: " ++ prepend_runid runId lane

/-- The log line emitted when a file body fails JSON parsing. -/
def badJsonMsg (fn : String) : String :=
  "Could not parse file as json: " ++ fn

/-- The `for conversionResult in content["ConversionResults"]` body:
log if the lane is already present, then (re)build its record. -/
def processConversionResult (runId filename : String) (st : RunData × List String)
    (cr : ConversionResult) : RunData × List String :=
  let lane := laneKey cr.laneNumber
  let logs := if (lookup st.1 lane).isSome then st.2 ++ [dupLaneMsg runId lane] else st.2
  (upsert lane (buildLane filename cr) st.1, logs)

/-- `parse_file_as_json`: on a parse failure, log and leave the tree
untouched; otherwise merge the file's conversion results into the run's
lane mapping.  Returns the updated tree and the emitted log lines. -/
def parse_file_as_json (data : Bcl2FastqData) (myfile : InputFile) :
    Bcl2FastqData × List String :=
  match myfile.content with
  | none => (data, [badJsonMsg myfile.fn])
  | some content =>
    let runId := content.runId
    let filename := pathJoin myfile.root myfile.fn
    let st := content.conversionResults.foldl (processConversionResult runId filename)
      ((lookup data runId).getD [], [])
    (upsert runId st.1 data, st.2)

/-- Ingest a list of files starting from an accumulated tree
(the `for myfile in self.find_log_files('bcl2fastq')` loop). -/
def ingestFrom (data : Bcl2FastqData) (logs : List String) :
    List InputFile → Bcl2FastqData × List String
  | [] => (data, logs)
  | f :: rest =>
    ingestFrom (parse_file_as_json data f).1
      (logs ++ (parse_file_as_json data f).2) rest

/-- Ingest all discovered files into an initially empty tree. -/
def ingestAll (files : List InputFile) : Bcl2FastqData × List String :=
  ingestFrom [] [] files

/-! ## Reshape (`split_data_by_lane_and_sample`)

The Python code reads `samples["undetermined"]["total"]` for each lane
and `samples[sample]["filename"]` for each non-undetermined sample; a
missing key would raise `KeyError`.  Both partial reads are modelled by
`Option`, propagated through the loops, so `none` means the reshape step
crashed. -/

/-- One value of `self.bcl2fastq_bylane`. -/
structure LaneAgg where
  total : Nat
  perfectIndex : Nat
  undetermined : Nat
  deriving DecidableEq, Repr

/-- One value of `self.bcl2fastq_bysample`. -/
structure SampleAgg where
  total : Nat
  perfectIndex : Nat
  deriving DecidableEq, Repr

/-- `self.bcl2fastq_bylane`. -/
abbrev ByLane : Type := List (String × LaneAgg)

/-- `self.bcl2fastq_bysample`. -/
abbrev BySample : Type := List (String × SampleAgg)

/-- `self.source_files`. -/
abbrev SourceFiles : Type := List (String × List String)

/-- The by-lane record read off one lane's tree node: fails exactly when
the `"undetermined"` sample entry is missing. -/
def mkLaneAgg (ld : LaneData) : Option LaneAgg :=
  (lookup ld.samples "undetermined").map fun und =>
    { total := ld.total, perfectIndex := ld.perfectIndex, undetermined := und.total }

/-- The `for sample in ...samples.keys()` body: accumulate the sample's
counts into the by-sample aggregate under the qualified name, and (for
real samples) append the source filename; reading a missing filename is
the `KeyError` case `none`. -/
def processSampleSplit (runId : String) (st : Option (BySample × SourceFiles))
    (p : String × SampleData) : Option (BySample × SourceFiles) :=
  match st with
  | none => none
  | some (bysample, sf) =>
    let key := prepend_runid runId p.1
    let cur := (lookup bysample key).getD ⟨0, 0⟩
    let bysample := upsert key
      ⟨cur.total + p.2.total, cur.perfectIndex + p.2.perfectIndex⟩ bysample
    if p.1 = "undetermined" then some (bysample, sf)
    else
      match p.2.filename with
      | none => none
      | some f => some (bysample, upsert key ((lookup sf key).getD [] ++ [f]) sf)

/-- The `for lane in ...keys()` body: emit the by-lane record (crashing
if `"undetermined"` is absent), then fold the sample loop. -/
def processLaneSplit (runId : String) (st : Option (ByLane × BySample × SourceFiles))
    (p : String × LaneData) : Option (ByLane × BySample × SourceFiles) :=
  match st with
  | none => none
  | some (bylane, bysample, sf) =>
    match mkLaneAgg p.2 with
    | none => none
    | some agg =>
      let bylane := upsert (prepend_runid runId p.1) agg bylane
      (p.2.samples.foldl (processSampleSplit runId) (some (bysample, sf))).map
        fun q => (bylane, q.1, q.2)

/-- The `for runId in ...keys()` body. -/
def processRunSplit (st : Option (ByLane × BySample × SourceFiles))
    (p : String × RunData) : Option (ByLane × BySample × SourceFiles) :=
  p.2.foldl (processLaneSplit p.1) st

/-- `split_data_by_lane_and_sample`: flatten the per-run tree into the
by-lane and by-sample views and the source-file index; `none` models a
fatal `KeyError`. -/
def split_data_by_lane_and_sample (data : Bcl2FastqData) :
    Option (ByLane × BySample × SourceFiles) :=
  data.foldl processRunSplit (some ([], [], []))

/-! ## General statistics (`add_general_stats`)

The percentage column is `'{0:.1f}'.format(float(100.0*perfectIndex/total))`.
CPython evaluates this through IEEE-754 binary64 arithmetic: the int
`perfectIndex` is converted to a double (raising `OverflowError` when it
would round to 2^1024 or beyond), multiplied by `100.0` with correct
rounding, the int `total` is converted likewise, the division is
correctly rounded (raising `ZeroDivisionError` on a zero divisor, and
silently producing `inf` on overflow), and `format` renders the exact
dyadic value of the resulting double to one decimal digit.  The model
below implements exactly that pipeline on nonnegative values: a double
is a dyadic `m * 2^e` with `m < 2^53` and `e ≥ -1074`, or `inf`, and
every operation rounds the exact rational result to the nearest such
dyadic with ties to even. -/

/-- Round `a / b` (with `b > 0`) to the nearest natural, ties to even. -/
def roundNearestEven (a b : Nat) : Nat :=
  let q := a / b
  let r := a % b
  if b < 2 * r then q + 1
  else if 2 * r < b then q
  else if q % 2 = 0 then q else q + 1

/-- A nonnegative CPython float: a finite dyadic `m * 2^e` or `inf`. -/
inductive PyFloat where
  | finite (m : Nat) (e : Int) : PyFloat
  | inf : PyFloat
  deriving DecidableEq, Repr

/-- Is the float zero (the only case where float division raises)? -/
def PyFloat.isZero : PyFloat → Bool
  | .finite m _ => m = 0
  | .inf => false

/-- Fuel-driven floor base-2 logarithm (kernel-computable). -/
def log2Aux : Nat → Nat → Nat
  | 0, _ => 0
  | fuel + 1, n => if n ≤ 1 then 0 else log2Aux fuel (n / 2) + 1

/-- Floor base-2 logarithm: the largest k with `2^k ≤ n` (0 at 0). -/
def natLog2 (n : Nat) : Nat := log2Aux n n

/-- Does `num / den ≥ 2^k` hold? -/
def geTwoPow (num den : Nat) (k : Int) : Bool :=
  if 0 ≤ k then decide (den * 2 ^ k.toNat ≤ num)
  else decide (den ≤ num * 2 ^ (-k).toNat)

/-- Exponent of the rounding quantum for the double nearest `num / den`:
`e2 - 52` for a normal result with `2^e2 ≤ num/den < 2^(e2+1)`, clamped
at the subnormal quantum `2^-1074`. -/
def qexp (num den : Nat) : Int :=
  let k : Int := (natLog2 num : Int) - (natLog2 den : Int)
  let e2 : Int := if geTwoPow num den k then k else k - 1
  max (e2 - 52) (-1074)

/-- Significand of the double nearest `num / den` at quantum `2^q`. -/
def roundQm (num den : Nat) (q : Int) : Nat :=
  if 0 ≤ q then roundNearestEven num (den * 2 ^ q.toNat)
  else roundNearestEven (num * 2 ^ (-q).toNat) den

/-- The IEEE-754 binary64 value nearest `num / den` (ties to even),
`inf` when the rounded value reaches `2^1024`. -/
def roundQ (num den : Nat) : PyFloat :=
  if num = 0 then .finite 0 0
  else
    let q := qexp num den
    let m := roundQm num den q
    let m' := if m = 2 ^ 53 then 2 ^ 52 else m
    let q' := if m = 2 ^ 53 then q + 1 else q
    if 972 ≤ q' then .inf else .finite m' q'

/-- CPython int-to-float conversion: the nearest double, or `none` for
the `OverflowError` raised when the int rounds to `2^1024` or beyond. -/
def toD (n : Nat) : Option PyFloat :=
  match roundQ n 1 with
  | .inf => none
  | f => some f

/-- Correctly rounded double multiplication (both operands finite in
the modelled pipeline; `inf` absorbs). -/
def mulD : PyFloat → PyFloat → PyFloat
  | .finite mx ex, .finite my ey =>
    let e := ex + ey
    if 0 ≤ e then roundQ (mx * my * 2 ^ e.toNat) 1
    else roundQ (mx * my) (2 ^ (-e).toNat)
  | _, _ => .inf

/-- Correctly rounded double division.  The zero-divisor case is
guarded before this is called (it raises `ZeroDivisionError`), so the
`mz = 0` arm is dead code. -/
def divD : PyFloat → PyFloat → PyFloat
  | .finite my ey, .finite mz ez =>
    if mz = 0 then .inf
    else
      let e := ey - ez
      if 0 ≤ e then roundQ (my * 2 ^ e.toNat) mz
      else roundQ my (mz * 2 ^ (-e).toNat)
  | .inf, _ => .inf
  | _, .inf => .finite 0 0

/-- `'{0:.1f}'` on a nonnegative double: the exact dyadic value rounded
to one decimal digit (a tie cannot occur: no dyadic is an odd multiple
of 1/20, so the half-even rule is vacuous but kept for completeness);
`inf` renders as "inf". -/
def render1 : PyFloat → String
  | .inf => "inf"
  | .finite m e =>
    let t := if 0 ≤ e then 10 * m * 2 ^ e.toNat
             else roundNearestEven (10 * m) (2 ^ (-e).toNat)
    toString (t / 10) ++ "." ++ toString (t % 10)

/-- The double literal `100.0` (exactly representable). -/
def float100 : PyFloat := roundQ 100 1

/-- The string CPython renders for `100.0*pi/total` when both counts
convert to float (the only case the reshape pipeline reaches). -/
def pyFormatPercent (pi total : Nat) : String :=
  match toD pi, toD total with
  | some x, some z => render1 (divD (mulD float100 x) z)
  | _, _ => ""

/-- `'{0:.1f}'.format(float(100.0*perfectIndex/total))` in evaluation
order: convert `perfectIndex`, multiply by `100.0`, convert `total`,
divide, format.  `none` models a fatal error: `OverflowError` on an
unconvertible count, or the `ZeroDivisionError` raised when
`total = 0`. -/
def perfectPercent (agg : SampleAgg) : Option String :=
  match toD agg.perfectIndex with
  | none => none
  | some x =>
    match toD agg.total with
    | none => none
    | some z =>
      if z.isZero then none
      else some (render1 (divD (mulD float100 x) z))

/-- One row of the general-statistics table: the `total` column and the
rendered `perfectPercent` column. -/
structure StatsRow where
  total : Nat
  perfectPercent : String
  deriving DecidableEq, Repr

/-- `add_general_stats`: the dict comprehension over the by-sample keys;
`none` models the fatal `ZeroDivisionError` on a zero-total sample. -/
def add_general_stats : BySample → Option (List (String × StatsRow))
  | [] => some []
  | p :: rest =>
    match perfectPercent p.2 with
    | none => none
    | some s => (add_general_stats rest).map fun t => (p.1, ⟨p.2.total, s⟩) :: t

/-! ## Module orchestration (`MultiqcModule.__init__`) -/

/-- What the module run produces.  `noData` models the non-fatal
`UserWarning` exit ("nothing to report", host skips the section);
`report` carries the rendered outputs (the two exported mappings, the
source-file index and the general-statistics rows). -/
inductive ModuleResult where
  | noData : ModuleResult
  | report : ByLane → BySample → SourceFiles → List (String × StatsRow) → ModuleResult
  deriving DecidableEq, Repr

/-- The tail of `__init__` after the reshape step: apply the host's
ignore-filter (modelled as an arbitrary keep-predicate on the qualified
names) to both views, exit with the non-fatal `noData` signal when both
are empty, otherwise build the general statistics and the outputs.
`none` models a fatal error. -/
def moduleAfterSplit (keep : String → Bool) (bylane : ByLane) (bysample : BySample)
    (sf : SourceFiles) : Option ModuleResult :=
  let bylane := bylane.filter fun kv => keep kv.1
  let bysample := bysample.filter fun kv => keep kv.1
  if bylane.length = 0 ∧ bysample.length = 0 then some ModuleResult.noData
  else
    (add_general_stats bysample).map fun stats =>
      ModuleResult.report bylane bysample sf stats

/-- The whole module run: ingest, reshape, filter, summarize. -/
def runModule (keep : String → Bool) (files : List InputFile) : Option ModuleResult :=
  match split_data_by_lane_and_sample (ingestAll files).1 with
  | none => none
  | some (bylane, bysample, sf) => moduleAfterSplit keep bylane bysample sf

/-! ## Dictionary lemmas -/

theorem lookup_upsert {β : Type} (k k' : String) (v : β) (m : List (String × β)) :
    lookup (upsert k v m) k' = if k' = k then some v else lookup m k' := by
  induction m with
  | nil =>
    by_cases h : k' = k
    · subst h; simp [upsert, lookup]
    · simp [upsert, lookup, h, Ne.symm h]
  | cons p rest ih =>
    by_cases hpk : p.1 = k
    · by_cases h : k' = k
      · subst h; simp [upsert, lookup, hpk]
      · have hp : ¬ p.1 = k' := by rw [hpk]; exact Ne.symm h
        simp [upsert, lookup, hpk, hp, h, Ne.symm h]
    · by_cases hp : p.1 = k'
      · have h : ¬ k' = k := by rw [← hp]; exact fun e => hpk e
        simp [upsert, lookup, hpk, hp, h]
      · simp [upsert, lookup, hpk, hp, ih]

theorem mem_upsert {β : Type} {k : String} {v : β} {m : List (String × β)}
    {q : String × β} (h : q ∈ upsert k v m) : q = (k, v) ∨ q ∈ m := by
  induction m with
  | nil =>
    simp only [upsert, List.mem_singleton] at h
    exact Or.inl h
  | cons p rest ih =>
    by_cases hpk : p.1 = k
    · simp only [upsert, hpk, if_true, List.mem_cons, eq_self_iff_true] at h
      rcases h with h | h
      · exact Or.inl h
      · exact Or.inr (List.mem_cons_of_mem _ h)
    · simp only [upsert, hpk, if_false, List.mem_cons, eq_self_iff_true] at h
      rcases h with h | h
      · exact Or.inr (List.mem_cons.2 (Or.inl h))
      · rcases ih h with h' | h'
        · exact Or.inl h'
        · exact Or.inr (List.mem_cons_of_mem _ h')

theorem lookup_mem {β : Type} {m : List (String × β)} {k : String} {v : β}
    (h : lookup m k = some v) : (k, v) ∈ m := by
  induction m with
  | nil => simp [lookup] at h
  | cons p rest ih =>
    obtain ⟨a, b⟩ := p
    by_cases hp : a = k
    · have hb : b = v := by simpa [lookup, hp] using h
      subst hp
      subst hb
      exact List.mem_cons_self _ _
    · have h' : lookup rest k = some v := by simpa [lookup, hp] using h
      exact List.mem_cons_of_mem _ (ih h')

theorem keysNodup_upsert {β : Type} (k : String) (v : β) (m : List (String × β))
    (h : (m.map Prod.fst).Nodup) : ((upsert k v m).map Prod.fst).Nodup := by
  induction m with
  | nil => simp [upsert]
  | cons p rest ih =>
    simp only [List.map_cons, List.nodup_cons] at h
    by_cases hpk : p.1 = k
    · simpa [upsert, hpk, List.nodup_cons] using h
    · have hk : ∀ q ∈ upsert k v rest, ¬ q.1 = p.1 := by
        intro q hq
        rcases mem_upsert hq with rfl | hq
        · exact fun e => hpk e.symm
        · exact fun e => h.1 (e ▸ List.mem_map_of_mem Prod.fst hq)
      simp only [upsert, hpk, if_false, List.map_cons, List.nodup_cons, eq_self_iff_true]
      refine ⟨?_, ih h.2⟩
      intro hmem
      rcases List.mem_map.1 hmem with ⟨q, hq, hfst⟩
      exact hk q hq hfst

theorem lookup_isSome_upsert {β : Type} {m : List (String × β)} {k k' : String} (v : β)
    (h : (lookup m k').isSome ∨ k' = k) : (lookup (upsert k v m) k').isSome := by
  rw [lookup_upsert]
  by_cases e : k' = k
  · simp [e]
  · rcases h with h | h
    · simpa [e] using h
    · exact absurd h e

/-! ## String key lemmas -/

theorem string_append_cancel_left {x y z : String} (h : x ++ y = x ++ z) : y = z := by
  have hd : x.data ++ y.data = x.data ++ z.data := by
    have := congrArg String.data h
    simpa [String.data_append] using this
  cases y
  cases z
  simp_all

theorem prepend_runid_inj {r a b : String} (h : prepend_runid r a = prepend_runid r b) :
    a = b := by
  unfold prepend_runid at h
  exact string_append_cancel_left (string_append_cancel_left (by simpa [String.append_assoc] using h))

/-- Value of a decimal digit character. -/
def digitVal (c : Char) : Nat := c.toNat - 48

/-- Evaluate a list of decimal digit characters. -/
def digitsVal (ds : List Char) : Nat :=
  ds.foldl (fun a c => 10 * a + digitVal c) 0

theorem digitsVal_from (init : Nat) (ds : List Char) :
    ds.foldl (fun a c => 10 * a + digitVal c) init = init * 10 ^ ds.length + digitsVal ds := by
  induction ds generalizing init with
  | nil => simp [digitsVal]
  | cons c rest ih =>
    rw [List.foldl_cons, ih (10 * init + digitVal c)]
    have h2 : digitsVal (c :: rest) = digitVal c * 10 ^ rest.length + digitsVal rest := by
      have h1 : digitsVal (c :: rest)
          = rest.foldl (fun a c => 10 * a + digitVal c) (10 * 0 + digitVal c) := rfl
      rw [h1, ih]
      ring
    rw [h2, List.length_cons]
    ring

theorem digitsVal_append (xs ys : List Char) :
    digitsVal (xs ++ ys) = digitsVal xs * 10 ^ ys.length + digitsVal ys := by
  have h1 : digitsVal (xs ++ ys)
      = ys.foldl (fun a c => 10 * a + digitVal c) (digitsVal xs) := by
    rw [digitsVal, List.foldl_append]
    rfl
  rw [h1, digitsVal_from]

theorem digitVal_digitChar {m : Nat} (h : m < 10) : digitVal (Nat.digitChar m) = m := by
  interval_cases m <;> rfl

theorem toDigitsCore_shift (fuel n : Nat) (ds : List Char) :
    Nat.toDigitsCore 10 fuel n ds = Nat.toDigitsCore 10 fuel n [] ++ ds := by
  induction fuel generalizing n ds with
  | zero => simp [Nat.toDigitsCore]
  | succ fuel ih =>
    simp only [Nat.toDigitsCore]
    by_cases h : n / 10 = 0
    · simp [h]
    · simp only [h, if_neg, not_false_iff]
      rw [ih (n / 10) (Nat.digitChar (n % 10) :: ds), ih (n / 10) [Nat.digitChar (n % 10)]]
      simp

theorem digitsVal_toDigitsCore {fuel n : Nat} (h : n < fuel) :
    digitsVal (Nat.toDigitsCore 10 fuel n []) = n := by
  induction fuel generalizing n with
  | zero => omega
  | succ fuel ih =>
    simp only [Nat.toDigitsCore]
    by_cases h0 : n / 10 = 0
    · have hn : n < 10 := by omega
      have h1 : digitsVal [Nat.digitChar (n % 10)] = n := by
        rw [Nat.mod_eq_of_lt hn]
        simp [digitsVal, digitVal_digitChar hn]
      simpa [h0] using h1
    · have hn10 : 10 ≤ n := by
        by_contra hc
        exact h0 (Nat.div_eq_of_lt (by omega))
      have hfuel : n / 10 < fuel := by
        have := Nat.div_lt_self (by omega : 0 < n) (by omega : 1 < 10)
        omega
      simp only [h0, if_neg, not_false_iff]
      rw [toDigitsCore_shift, digitsVal_append, ih hfuel]
      simp [digitsVal, digitVal_digitChar (Nat.mod_lt _ (by omega : 0 < 10))]
      omega

theorem nat_repr_injective {n m : Nat} (h : Nat.repr n = Nat.repr m) : n = m := by
  have hd : Nat.toDigits 10 n = Nat.toDigits 10 m := by
    have := congrArg String.data h
    simpa [Nat.repr, List.asString] using this
  have hn := digitsVal_toDigitsCore (Nat.lt_succ_self n)
  have hm := digitsVal_toDigitsCore (Nat.lt_succ_self m)
  unfold Nat.toDigits at hd
  rw [← hn, ← hm, hd]

theorem laneKey_inj {n m : Nat} (h : laneKey n = laneKey m) : n = m := by
  unfold laneKey at h
  exact nat_repr_injective (string_append_cancel_left h)

/-! ## Ingestion lemmas -/

theorem ingestFrom_fst (files : List InputFile) (d : Bcl2FastqData) (logs : List String) :
    (ingestFrom d logs files).1 = files.foldl (fun d f => (parse_file_as_json d f).1) d := by
  induction files generalizing d logs with
  | nil => rfl
  | cons f rest ih => rw [List.foldl_cons, ingestFrom, ih]

theorem crFold_fst (r fn : String) (crs : List ConversionResult) (rd0 : RunData)
    (logs0 : List String) :
    (crs.foldl (processConversionResult r fn) (rd0, logs0)).1
      = crs.foldl (fun rd cr => upsert (laneKey cr.laneNumber) (buildLane fn cr) rd) rd0 := by
  induction crs generalizing rd0 logs0 with
  | nil => rfl
  | cons cr rest ih =>
    rw [List.foldl_cons, List.foldl_cons]
    exact ih _ _

theorem pureCrFold_lookup {fn : String} {crs : List ConversionResult} {rd0 : RunData}
    {lane : String} {ld : LaneData}
    (h : lookup (crs.foldl
        (fun rd cr => upsert (laneKey cr.laneNumber) (buildLane fn cr) rd) rd0) lane
      = some ld) :
    lookup rd0 lane = some ld
      ∨ ∃ cr ∈ crs, laneKey cr.laneNumber = lane ∧ ld = buildLane fn cr := by
  induction crs generalizing rd0 with
  | nil => exact Or.inl h
  | cons cr rest ih =>
    rw [List.foldl_cons] at h
    rcases ih h with h' | ⟨cr', hmem, hl, he⟩
    · rw [lookup_upsert] at h'
      by_cases e : lane = laneKey cr.laneNumber
      · right
        refine ⟨cr, List.mem_cons_self _ _, e.symm, ?_⟩
        have := h'
        rw [if_pos e] at this
        exact (Option.some_injective _ this).symm
      · left
        rwa [if_neg e] at h'
    · exact Or.inr ⟨cr', List.mem_cons_of_mem _ hmem, hl, he⟩

theorem pureCrFold_mem {fn : String} {crs : List ConversionResult} {rd0 : RunData}
    {lp : String × LaneData}
    (h : lp ∈ crs.foldl
        (fun rd cr => upsert (laneKey cr.laneNumber) (buildLane fn cr) rd) rd0) :
    lp ∈ rd0 ∨ ∃ cr ∈ crs, lp = (laneKey cr.laneNumber, buildLane fn cr) := by
  induction crs generalizing rd0 with
  | nil => exact Or.inl h
  | cons cr rest ih =>
    rw [List.foldl_cons] at h
    rcases ih h with h' | ⟨cr', hmem, he⟩
    · rcases mem_upsert h' with he | hin
      · exact Or.inr ⟨cr, List.mem_cons_self _ _, he⟩
      · exact Or.inl hin
    · exact Or.inr ⟨cr', List.mem_cons_of_mem _ hmem, he⟩

theorem parse_lane_lookup {d : Bcl2FastqData} {f : InputFile} {r lane : String}
    {rd : RunData} {ld : LaneData}
    (h1 : lookup (parse_file_as_json d f).1 r = some rd)
    (h2 : lookup rd lane = some ld) :
    (∃ rd0, lookup d r = some rd0 ∧ lookup rd0 lane = some ld)
      ∨ ∃ c, f.content = some c ∧ c.runId = r ∧ ∃ cr ∈ c.conversionResults,
          laneKey cr.laneNumber = lane ∧ ld = buildLane (pathJoin f.root f.fn) cr := by
  rcases hc : f.content with _ | c
  · left
    rw [parse_file_as_json, hc] at h1
    exact ⟨rd, h1, h2⟩
  · rw [parse_file_as_json, hc] at h1
    simp only at h1
    rw [lookup_upsert] at h1
    by_cases e : r = c.runId
    · rw [if_pos e] at h1
      have hrd : rd = (c.conversionResults.foldl
          (fun rd cr => upsert (laneKey cr.laneNumber)
            (buildLane (pathJoin f.root f.fn) cr) rd)
          ((lookup d c.runId).getD [])) := by
        have := (Option.some_injective _ h1).symm
        rw [this, crFold_fst]
      rw [hrd] at h2
      rcases pureCrFold_lookup h2 with hbase | ⟨cr, hmem, hl, he⟩
      · rcases hb : lookup d c.runId with _ | rd0
        · rw [hb] at hbase
          simp [lookup] at hbase
        · rw [hb] at hbase
          exact Or.inl ⟨rd0, e ▸ hb, hbase⟩
      · exact Or.inr ⟨c, rfl, e.symm, cr, hmem, hl, he⟩
    · rw [if_neg e] at h1
      exact Or.inl ⟨rd, h1, h2⟩

theorem ingest_lane_lookup {files : List InputFile} {d : Bcl2FastqData} {r lane : String}
    {rd : RunData} {ld : LaneData}
    (h1 : lookup (files.foldl (fun d f => (parse_file_as_json d f).1) d) r = some rd)
    (h2 : lookup rd lane = some ld) :
    (∃ rd0, lookup d r = some rd0 ∧ lookup rd0 lane = some ld)
      ∨ ∃ f ∈ files, ∃ c, f.content = some c ∧ c.runId = r ∧
          ∃ cr ∈ c.conversionResults,
            laneKey cr.laneNumber = lane ∧ ld = buildLane (pathJoin f.root f.fn) cr := by
  induction files generalizing d with
  | nil => exact Or.inl ⟨rd, h1, h2⟩
  | cons f rest ih =>
    rw [List.foldl_cons] at h1
    rcases ih h1 with ⟨rd0, hl, hl2⟩ | ⟨f', hmem, hrest⟩
    · rcases parse_lane_lookup hl hl2 with h | ⟨c, hcc⟩
      · exact Or.inl h
      · exact Or.inr ⟨f, List.mem_cons_self _ _, c, hcc⟩
    · exact Or.inr ⟨f', List.mem_cons_of_mem _ hmem, hrest⟩

/-! ## `buildLane` arithmetic -/

theorem demuxFold_total (fn : String) (ds : List DemuxResult) (acc : LaneData) :
    (ds.foldl (processDemux fn) acc).total
      = acc.total + (ds.map DemuxResult.numberReads).sum := by
  induction ds generalizing acc with
  | nil => simp
  | cons d rest ih =>
    rw [List.foldl_cons, ih]
    show acc.total + d.numberReads + _ = _
    simp [Nat.add_assoc]

theorem demuxFold_perfectIndex (fn : String) (ds : List DemuxResult) (acc : LaneData) :
    (ds.foldl (processDemux fn) acc).perfectIndex
      = acc.perfectIndex + (ds.map (fun d => sumMismatch0 d.indexMetrics)).sum := by
  induction ds generalizing acc with
  | nil => simp
  | cons d rest ih =>
    rw [List.foldl_cons, ih]
    show acc.perfectIndex + sumMismatch0 d.indexMetrics + _ = _
    simp [Nat.add_assoc]

theorem buildLane_total (fn : String) (cr : ConversionResult) :
    (buildLane fn cr).total = (cr.demuxResults.map DemuxResult.numberReads).sum := by
  show (cr.demuxResults.foldl (processDemux fn) ⟨0, 0, []⟩).total = _
  rw [demuxFold_total]
  simp

theorem buildLane_perfectIndex (fn : String) (cr : ConversionResult) :
    (buildLane fn cr).perfectIndex
      = (cr.demuxResults.map (fun d => sumMismatch0 d.indexMetrics)).sum := by
  show (cr.demuxResults.foldl (processDemux fn) ⟨0, 0, []⟩).perfectIndex = _
  rw [demuxFold_perfectIndex]
  simp

theorem buildLane_lookup_und (fn : String) (cr : ConversionResult) :
    lookup (buildLane fn cr).samples "undetermined"
      = some ⟨cr.undeterminedNumberReads, 0, none⟩ := by
  show lookup (upsert "undetermined" _ _) "undetermined" = _
  rw [lookup_upsert, if_pos rfl]

theorem mkLaneAgg_buildLane (fn : String) (cr : ConversionResult) :
    mkLaneAgg (buildLane fn cr)
      = some ⟨(buildLane fn cr).total, (buildLane fn cr).perfectIndex,
          cr.undeterminedNumberReads⟩ := by
  rw [mkLaneAgg, buildLane_lookup_und]
  rfl

/-! ## Well-formedness of the ingested tree

Every lane record the ingestion step ever writes has the synthetic
`"undetermined"` sample entry and a source filename on every other
sample entry, which is exactly what the reshape step's partial lookups
require. -/

/-- A lane record as the reshape step needs it. -/
def WFlane (ld : LaneData) : Prop :=
  (lookup ld.samples "undetermined").isSome ∧
    ∀ p ∈ ld.samples, p.1 ≠ "undetermined" → p.2.filename.isSome

/-- All lane records of the tree are well-formed. -/
def WFdata (d : Bcl2FastqData) : Prop :=
  ∀ rp ∈ d, ∀ lp ∈ rp.2, WFlane lp.2

theorem demuxFold_samples_filename (fn : String) (ds : List DemuxResult) :
    ∀ (acc : LaneData), (∀ p ∈ acc.samples, p.2.filename.isSome) →
      ∀ p ∈ (ds.foldl (processDemux fn) acc).samples, p.2.filename.isSome := by
  induction ds with
  | nil => intro acc h; exact h
  | cons d rest ih =>
    intro acc h
    rw [List.foldl_cons]
    apply ih
    intro p hp
    rcases mem_upsert hp with rfl | hp'
    · rfl
    · exact h p hp'

theorem WFlane_buildLane (fn : String) (cr : ConversionResult) : WFlane (buildLane fn cr) := by
  have hsamp : (buildLane fn cr).samples
      = upsert "undetermined" ⟨cr.undeterminedNumberReads, 0, none⟩
          (cr.demuxResults.foldl (processDemux fn) ⟨0, 0, []⟩).samples := rfl
  constructor
  · rw [buildLane_lookup_und]; rfl
  · intro p hp hne
    rw [hsamp] at hp
    rcases mem_upsert hp with rfl | hp'
    · exact absurd rfl hne
    · exact demuxFold_samples_filename fn cr.demuxResults ⟨0, 0, []⟩
        (by intro q hq; cases hq) p hp'

theorem WFdata_parse {d : Bcl2FastqData} (f : InputFile) (h : WFdata d) :
    WFdata (parse_file_as_json d f).1 := by
  rcases hc : f.content with _ | c
  · rw [parse_file_as_json, hc]
    exact h
  · rw [parse_file_as_json, hc]
    simp only
    intro rp hrp lp hlp
    rcases mem_upsert hrp with rfl | hin
    · have hlp' : lp ∈ c.conversionResults.foldl
          (fun rd cr => upsert (laneKey cr.laneNumber)
            (buildLane (pathJoin f.root f.fn) cr) rd)
          ((lookup d c.runId).getD []) := by
        rw [← crFold_fst]
        exact hlp
      rcases pureCrFold_mem hlp' with hbase | ⟨cr, _, rfl⟩
      · rcases hb : lookup d c.runId with _ | rd0
        · rw [hb] at hbase
          cases hbase
        · rw [hb] at hbase
          exact h _ (lookup_mem hb) _ hbase
      · exact WFlane_buildLane _ _
    · exact h rp hin lp hlp

theorem WFdata_ingest (files : List InputFile) : ∀ {d : Bcl2FastqData}, WFdata d →
    WFdata (files.foldl (fun d f => (parse_file_as_json d f).1) d) := by
  induction files with
  | nil => intro d h; exact h
  | cons f rest ih =>
    intro d h
    rw [List.foldl_cons]
    exact ih (WFdata_parse f h)

/-! ## The reshape step succeeds on well-formed data -/

theorem sampleFold_none (r : String) (samples : List (String × SampleData)) :
    samples.foldl (processSampleSplit r) none = none := by
  induction samples with
  | nil => rfl
  | cons p rest ih => rw [List.foldl_cons]; exact ih

theorem sampleFold_some (r : String) (samples : List (String × SampleData)) :
    (∀ p ∈ samples, p.1 ≠ "undetermined" → p.2.filename.isSome) →
    ∀ (bs : BySample) (sf : SourceFiles),
      ∃ q, samples.foldl (processSampleSplit r) (some (bs, sf)) = some q := by
  induction samples with
  | nil => exact fun _ bs sf => ⟨(bs, sf), rfl⟩
  | cons p rest ih =>
    intro h bs sf
    rw [List.foldl_cons]
    by_cases hu : p.1 = "undetermined"
    · have hstep : processSampleSplit r (some (bs, sf)) p
          = some (upsert (prepend_runid r p.1)
              ⟨((lookup bs (prepend_runid r p.1)).getD ⟨0, 0⟩).total + p.2.total,
               ((lookup bs (prepend_runid r p.1)).getD ⟨0, 0⟩).perfectIndex + p.2.perfectIndex⟩
              bs, sf) := by
        simp [processSampleSplit, hu]
      rw [hstep]
      exact ih (fun q hq => h q (List.mem_cons_of_mem _ hq)) _ _
    · rcases hf : p.2.filename with _ | fname
      · exfalso
        have := h p (List.mem_cons_self _ _) hu
        rw [hf] at this
        cases this
      · have hstep : processSampleSplit r (some (bs, sf)) p
            = some (upsert (prepend_runid r p.1)
                ⟨((lookup bs (prepend_runid r p.1)).getD ⟨0, 0⟩).total + p.2.total,
                 ((lookup bs (prepend_runid r p.1)).getD ⟨0, 0⟩).perfectIndex + p.2.perfectIndex⟩
                bs,
              upsert (prepend_runid r p.1)
                ((lookup sf (prepend_runid r p.1)).getD [] ++ [fname]) sf) := by
          simp [processSampleSplit, hu, hf]
        rw [hstep]
        exact ih (fun q hq => h q (List.mem_cons_of_mem _ hq)) _ _

theorem laneFold_none (r : String) (lanes : List (String × LaneData)) :
    lanes.foldl (processLaneSplit r) none = none := by
  induction lanes with
  | nil => rfl
  | cons p rest ih => rw [List.foldl_cons]; exact ih

theorem laneFold_some (r : String) (lanes : List (String × LaneData)) :
    (∀ lp ∈ lanes, WFlane lp.2) →
    ∀ (st : ByLane × BySample × SourceFiles),
      ∃ q, lanes.foldl (processLaneSplit r) (some st) = some q := by
  induction lanes with
  | nil => exact fun _ st => ⟨st, rfl⟩
  | cons lp rest ih =>
    intro h st
    obtain ⟨bl, bs, sf⟩ := st
    have hwf := h lp (List.mem_cons_self _ _)
    rcases Option.isSome_iff_exists.1 hwf.1 with ⟨und, hund⟩
    have hagg : mkLaneAgg lp.2 = some ⟨lp.2.total, lp.2.perfectIndex, und.total⟩ := by
      rw [mkLaneAgg, hund]; rfl
    rw [List.foldl_cons]
    have hstep : processLaneSplit r (some (bl, bs, sf)) lp
        = (lp.2.samples.foldl (processSampleSplit r) (some (bs, sf))).map
            (fun q => (upsert (prepend_runid r lp.1)
              ⟨lp.2.total, lp.2.perfectIndex, und.total⟩ bl, q.1, q.2)) := by
      simp [processLaneSplit, hagg]
    rcases sampleFold_some r lp.2.samples hwf.2 bs sf with ⟨q, hq⟩
    rw [hstep, hq, Option.map_some']
    exact ih (fun x hx => h x (List.mem_cons_of_mem _ hx)) _

theorem runFold_none (data : Bcl2FastqData) :
    data.foldl processRunSplit none = none := by
  induction data with
  | nil => rfl
  | cons rp rest ih =>
    rw [List.foldl_cons]
    have h : processRunSplit none rp = none := laneFold_none rp.1 rp.2
    rw [h]
    exact ih

theorem runFold_some (data : Bcl2FastqData) :
    WFdata data → ∀ st, ∃ q, data.foldl processRunSplit (some st) = some q := by
  induction data with
  | nil => exact fun _ st => ⟨st, rfl⟩
  | cons rp rest ih =>
    intro h st
    rw [List.foldl_cons]
    rcases laneFold_some rp.1 rp.2 (fun lp hlp => h rp (List.mem_cons_self _ _) lp hlp) st
      with ⟨q, hq⟩
    have hstep : processRunSplit (some st) rp = some q := hq
    rw [hstep]
    exact ih (fun x hx => h x (List.mem_cons_of_mem _ hx)) q

theorem split_some_of_WF {data : Bcl2FastqData} (h : WFdata data) :
    ∃ q, split_data_by_lane_and_sample data = some q :=
  runFold_some data h ([], [], [])

/-! ## Fusing the reshape loops over the visited sample entries

The by-sample view and the source-file index depend only on the sequence
of `(runId, sampleName, record)` triples the nested loops visit, in
order.  Flattening the three loops into one fold makes the accumulation
lemmas one-level inductions. -/

/-- The triples visited by the reshape step's sample loop, in order. -/
def sampleEntries (data : Bcl2FastqData) : List (String × String × SampleData) :=
  data.flatMap fun rp => rp.2.flatMap fun lp => lp.2.samples.map fun sp => (rp.1, sp.1, sp.2)

/-- The sample-loop body, reindexed by a visited triple. -/
def sampleStep (st : Option (BySample × SourceFiles)) (e : String × String × SampleData) :
    Option (BySample × SourceFiles) :=
  processSampleSplit e.1 st (e.2.1, e.2.2)

theorem entriesFold_none (es : List (String × String × SampleData)) :
    es.foldl sampleStep none = none := by
  induction es with
  | nil => rfl
  | cons e rest ih => rw [List.foldl_cons]; exact ih

theorem sampleFold_entries (r : String) (samples : List (String × SampleData))
    (st : Option (BySample × SourceFiles)) :
    (samples.map fun sp => (r, sp.1, sp.2)).foldl sampleStep st
      = samples.foldl (processSampleSplit r) st := by
  rw [List.foldl_map]
  rfl

theorem laneFold_entries (r : String) (lanes : List (String × LaneData)) :
    ∀ (bl0 : ByLane) (bs0 : BySample) (sf0 : SourceFiles)
      (res : ByLane × BySample × SourceFiles),
      lanes.foldl (processLaneSplit r) (some (bl0, bs0, sf0)) = some res →
      (lanes.flatMap fun lp => lp.2.samples.map fun sp => (r, sp.1, sp.2)).foldl
          sampleStep (some (bs0, sf0))
        = some (res.2.1, res.2.2) := by
  induction lanes with
  | nil =>
    intro bl0 bs0 sf0 res h
    rw [List.foldl_nil] at h
    injection h with h
    rw [← h]
    rfl
  | cons lp rest ih =>
    intro bl0 bs0 sf0 res h
    rw [List.foldl_cons] at h
    rcases hagg : mkLaneAgg lp.2 with _ | agg
    · have hstep : processLaneSplit r (some (bl0, bs0, sf0)) lp = none := by
        simp [processLaneSplit, hagg]
      rw [hstep, laneFold_none] at h
      cases h
    · have hstep : processLaneSplit r (some (bl0, bs0, sf0)) lp
          = (lp.2.samples.foldl (processSampleSplit r) (some (bs0, sf0))).map
              (fun q => (upsert (prepend_runid r lp.1) agg bl0, q.1, q.2)) := by
        simp [processLaneSplit, hagg]
      rcases hsf : lp.2.samples.foldl (processSampleSplit r) (some (bs0, sf0)) with _ | q
      · rw [hstep, hsf] at h
        simp only [Option.map_none'] at h
        rw [laneFold_none] at h
        cases h
      · rw [hstep, hsf, Option.map_some'] at h
        have h2 := ih _ _ _ _ h
        rw [List.flatMap_cons, List.foldl_append, sampleFold_entries, hsf]
        exact h2

theorem runFold_entries (data : Bcl2FastqData) :
    ∀ (bl0 : ByLane) (bs0 : BySample) (sf0 : SourceFiles)
      (res : ByLane × BySample × SourceFiles),
      data.foldl processRunSplit (some (bl0, bs0, sf0)) = some res →
      (sampleEntries data).foldl sampleStep (some (bs0, sf0)) = some (res.2.1, res.2.2) := by
  induction data with
  | nil =>
    intro bl0 bs0 sf0 res h
    rw [List.foldl_nil] at h
    injection h with h
    rw [← h]
    rfl
  | cons rp rest ih =>
    intro bl0 bs0 sf0 res h
    rw [List.foldl_cons] at h
    rcases hlf : rp.2.foldl (processLaneSplit rp.1) (some (bl0, bs0, sf0))
      with _ | st'
    · have h' : rest.foldl processRunSplit none = some res := by rw [← hlf]; exact h
      rw [runFold_none] at h'
      cases h'
    · have h' : rest.foldl processRunSplit (some st') = some res := by rw [← hlf]; exact h
      obtain ⟨bl1, bs1, sf1⟩ := st'
      have h2 := ih bl1 bs1 sf1 res h'
      have h3 := laneFold_entries rp.1 rp.2 bl0 bs0 sf0 (bl1, bs1, sf1) hlf
      rw [sampleEntries, List.flatMap_cons, List.foldl_append]
      rw [show (rp.2.flatMap fun lp => lp.2.samples.map fun sp => (rp.1, sp.1, sp.2)).foldl
            sampleStep (some (bs0, sf0)) = some (bs1, sf1) from h3]
      exact h2

theorem split_entries {data : Bcl2FastqData} {bl : ByLane} {bs : BySample}
    {sf : SourceFiles} (h : split_data_by_lane_and_sample data = some (bl, bs, sf)) :
    (sampleEntries data).foldl sampleStep (some ([], [])) = some (bs, sf) :=
  runFold_entries data [] [] [] (bl, bs, sf) h

/-! ## Accumulation over visited sample entries -/

/-- The by-sample aggregate read with a zero default. -/
def aggAt (bs : BySample) (key : String) : SampleAgg :=
  (lookup bs key).getD ⟨0, 0⟩

/-- Total-read contribution of a list of visited triples to one key. -/
def entriesContribT (key : String) (es : List (String × String × SampleData)) : Nat :=
  (es.map fun e => if prepend_runid e.1 e.2.1 = key then e.2.2.total else 0).sum

/-- Perfect-index contribution of a list of visited triples to one key. -/
def entriesContribP (key : String) (es : List (String × String × SampleData)) : Nat :=
  (es.map fun e => if prepend_runid e.1 e.2.1 = key then e.2.2.perfectIndex else 0).sum

theorem sampleStep_bysample {bs : BySample} {sf : SourceFiles}
    {st' : BySample × SourceFiles} {e : String × String × SampleData}
    (h : sampleStep (some (bs, sf)) e = some st') :
    st'.1 = upsert (prepend_runid e.1 e.2.1)
      ⟨(aggAt bs (prepend_runid e.1 e.2.1)).total + e.2.2.total,
       (aggAt bs (prepend_runid e.1 e.2.1)).perfectIndex + e.2.2.perfectIndex⟩ bs := by
  by_cases hu : e.2.1 = "undetermined"
  · have : sampleStep (some (bs, sf)) e
        = some (upsert (prepend_runid e.1 e.2.1)
            ⟨(aggAt bs (prepend_runid e.1 e.2.1)).total + e.2.2.total,
             (aggAt bs (prepend_runid e.1 e.2.1)).perfectIndex + e.2.2.perfectIndex⟩ bs,
           sf) := by
      simp [sampleStep, processSampleSplit, hu, aggAt]
    rw [this] at h
    injection h with h
    rw [← h]
  · rcases hf : e.2.2.filename with _ | fname
    · have : sampleStep (some (bs, sf)) e = none := by
        simp [sampleStep, processSampleSplit, hu, hf]
      rw [this] at h
      cases h
    · have : sampleStep (some (bs, sf)) e
          = some (upsert (prepend_runid e.1 e.2.1)
              ⟨(aggAt bs (prepend_runid e.1 e.2.1)).total + e.2.2.total,
               (aggAt bs (prepend_runid e.1 e.2.1)).perfectIndex + e.2.2.perfectIndex⟩ bs,
             upsert (prepend_runid e.1 e.2.1)
               ((lookup sf (prepend_runid e.1 e.2.1)).getD [] ++ [fname]) sf) := by
        simp [sampleStep, processSampleSplit, hu, hf, aggAt]
      rw [this] at h
      injection h with h
      rw [← h]

theorem sampleStep_sf {bs : BySample} {sf : SourceFiles}
    {st' : BySample × SourceFiles} {e : String × String × SampleData}
    (h : sampleStep (some (bs, sf)) e = some st') :
    st'.2 = sf ∨ (e.2.1 ≠ "undetermined"
      ∧ st'.2 = upsert (prepend_runid e.1 e.2.1)
          ((lookup sf (prepend_runid e.1 e.2.1)).getD [] ++
            [(e.2.2.filename).getD ""]) sf) := by
  by_cases hu : e.2.1 = "undetermined"
  · left
    have : sampleStep (some (bs, sf)) e
        = some (upsert (prepend_runid e.1 e.2.1)
            ⟨(aggAt bs (prepend_runid e.1 e.2.1)).total + e.2.2.total,
             (aggAt bs (prepend_runid e.1 e.2.1)).perfectIndex + e.2.2.perfectIndex⟩ bs,
           sf) := by
      simp [sampleStep, processSampleSplit, hu, aggAt]
    rw [this] at h
    injection h with h
    rw [← h]
  · rcases hf : e.2.2.filename with _ | fname
    · have : sampleStep (some (bs, sf)) e = none := by
        simp [sampleStep, processSampleSplit, hu, hf]
      rw [this] at h
      cases h
    · right
      refine ⟨hu, ?_⟩
      have : sampleStep (some (bs, sf)) e
          = some (upsert (prepend_runid e.1 e.2.1)
              ⟨(aggAt bs (prepend_runid e.1 e.2.1)).total + e.2.2.total,
               (aggAt bs (prepend_runid e.1 e.2.1)).perfectIndex + e.2.2.perfectIndex⟩ bs,
             upsert (prepend_runid e.1 e.2.1)
               ((lookup sf (prepend_runid e.1 e.2.1)).getD [] ++ [fname]) sf) := by
        simp [sampleStep, processSampleSplit, hu, hf, aggAt]
      rw [this] at h
      injection h with h
      rw [← h]
      rfl

theorem entriesFold_aggAt (es : List (String × String × SampleData)) :
    ∀ (bs : BySample) (sf : SourceFiles) (bs' : BySample) (sf' : SourceFiles),
      es.foldl sampleStep (some (bs, sf)) = some (bs', sf') →
      ∀ key, (aggAt bs' key).total = (aggAt bs key).total + entriesContribT key es
        ∧ (aggAt bs' key).perfectIndex
            = (aggAt bs key).perfectIndex + entriesContribP key es := by
  induction es with
  | nil =>
    intro bs sf bs' sf' h key
    rw [List.foldl_nil] at h
    injection h with h
    injection h with h1 h2
    rw [← h1]
    simp [entriesContribT, entriesContribP]
  | cons e rest ih =>
    intro bs sf bs' sf' h key
    rw [List.foldl_cons] at h
    rcases hstep : sampleStep (some (bs, sf)) e with _ | st1
    · rw [hstep, entriesFold_none] at h
      cases h
    · rw [hstep] at h
      obtain ⟨bs1, sf1⟩ := st1
      have hb := sampleStep_bysample hstep
      have h2 := ih bs1 sf1 bs' sf' h key
      have hstep1T : (aggAt bs1 key).total = (aggAt bs key).total
          + (if prepend_runid e.1 e.2.1 = key then e.2.2.total else 0) := by
        simp only at hb
        rw [hb, aggAt, lookup_upsert]
        by_cases hk : key = prepend_runid e.1 e.2.1
        · rw [if_pos hk, if_pos hk.symm, hk]
          rfl
        · rw [if_neg hk, if_neg (fun hh => hk hh.symm)]
          rfl
      have hstep1P : (aggAt bs1 key).perfectIndex = (aggAt bs key).perfectIndex
          + (if prepend_runid e.1 e.2.1 = key then e.2.2.perfectIndex else 0) := by
        simp only at hb
        rw [hb, aggAt, lookup_upsert]
        by_cases hk : key = prepend_runid e.1 e.2.1
        · rw [if_pos hk, if_pos hk.symm, hk]
          rfl
        · rw [if_neg hk, if_neg (fun hh => hk hh.symm)]
          rfl
      have hcT : entriesContribT key (e :: rest)
          = (if prepend_runid e.1 e.2.1 = key then e.2.2.total else 0)
            + entriesContribT key rest := by
        simp [entriesContribT]
      have hcP : entriesContribP key (e :: rest)
          = (if prepend_runid e.1 e.2.1 = key then e.2.2.perfectIndex else 0)
            + entriesContribP key rest := by
        simp [entriesContribP]
      refine ⟨?_, ?_⟩
      · rw [h2.1, hstep1T, hcT]
        omega
      · rw [h2.2, hstep1P, hcP]
        omega

theorem entriesFold_key_isSome (es : List (String × String × SampleData)) :
    ∀ (bs : BySample) (sf : SourceFiles) (bs' : BySample) (sf' : SourceFiles),
      es.foldl sampleStep (some (bs, sf)) = some (bs', sf') →
      ∀ key, ((lookup bs key).isSome ∨ ∃ e ∈ es, prepend_runid e.1 e.2.1 = key) →
        (lookup bs' key).isSome := by
  induction es with
  | nil =>
    intro bs sf bs' sf' h key hk
    rw [List.foldl_nil] at h
    injection h with h
    injection h with h1 h2
    rw [← h1]
    rcases hk with hk | ⟨e, he, _⟩
    · exact hk
    · cases he
  | cons e rest ih =>
    intro bs sf bs' sf' h key hk
    rw [List.foldl_cons] at h
    rcases hstep : sampleStep (some (bs, sf)) e with _ | st1
    · rw [hstep, entriesFold_none] at h
      cases h
    · rw [hstep] at h
      obtain ⟨bs1, sf1⟩ := st1
      have hb := sampleStep_bysample hstep
      simp only at hb
      apply ih bs1 sf1 bs' sf' h key
      rcases hk with hk | ⟨e', he', hke⟩
      · left
        rw [hb]
        exact lookup_isSome_upsert _ (Or.inl hk)
      · rcases List.mem_cons.1 he' with rfl | he''
        · left
          rw [hb]
          exact lookup_isSome_upsert _ (Or.inr hke.symm)
        · right
          exact ⟨e', he'', hke⟩

theorem entriesFold_sf_isSome (es : List (String × String × SampleData)) :
    ∀ (bs : BySample) (sf : SourceFiles) (bs' : BySample) (sf' : SourceFiles),
      es.foldl sampleStep (some (bs, sf)) = some (bs', sf') →
      ∀ key, (lookup sf' key).isSome →
        (lookup sf key).isSome
          ∨ ∃ e ∈ es, e.2.1 ≠ "undetermined" ∧ prepend_runid e.1 e.2.1 = key := by
  induction es with
  | nil =>
    intro bs sf bs' sf' h key hk
    rw [List.foldl_nil] at h
    injection h with h
    injection h with h1 h2
    rw [← h2] at hk
    exact Or.inl hk
  | cons e rest ih =>
    intro bs sf bs' sf' h key hk
    rw [List.foldl_cons] at h
    rcases hstep : sampleStep (some (bs, sf)) e with _ | st1
    · rw [hstep, entriesFold_none] at h
      cases h
    · rw [hstep] at h
      obtain ⟨bs1, sf1⟩ := st1
      rcases ih bs1 sf1 bs' sf' h key hk with h1 | ⟨e', he', hu', hke'⟩
      · rcases sampleStep_sf hstep with hsf | ⟨hu, hsf⟩
        · simp only at hsf
          rw [hsf] at h1
          exact Or.inl h1
        · simp only at hsf
          rw [hsf, lookup_upsert] at h1
          by_cases hkk : key = prepend_runid e.1 e.2.1
          · exact Or.inr ⟨e, List.mem_cons_self _ _, hu, hkk.symm⟩
          · rw [if_neg hkk] at h1
            exact Or.inl h1
      · exact Or.inr ⟨e', List.mem_cons_of_mem _ he', hu', hke'⟩

/-! ## Sample-name keys of a built lane are distinct -/

theorem demuxFold_keysNodup (fn : String) (ds : List DemuxResult) :
    ∀ acc : LaneData, (acc.samples.map Prod.fst).Nodup →
      (((ds.foldl (processDemux fn) acc).samples).map Prod.fst).Nodup := by
  induction ds with
  | nil => intro acc h; exact h
  | cons d rest ih =>
    intro acc h
    rw [List.foldl_cons]
    exact ih _ (keysNodup_upsert _ _ _ h)

theorem buildLane_keysNodup (fn : String) (cr : ConversionResult) :
    (((buildLane fn cr).samples).map Prod.fst).Nodup := by
  have hs : (buildLane fn cr).samples
      = upsert "undetermined" ⟨cr.undeterminedNumberReads, 0, none⟩
          (cr.demuxResults.foldl (processDemux fn) ⟨0, 0, []⟩).samples := rfl
  rw [hs]
  exact keysNodup_upsert _ _ _ (demuxFold_keysNodup fn _ ⟨0, 0, []⟩ (by simp))

/-! ## Contribution of one lane to one by-sample key -/

theorem entriesContrib_append (key : String) (xs ys : List (String × String × SampleData)) :
    entriesContribT key (xs ++ ys) = entriesContribT key xs + entriesContribT key ys
      ∧ entriesContribP key (xs ++ ys) = entriesContribP key xs + entriesContribP key ys := by
  constructor <;> simp [entriesContribT, entriesContribP]

theorem entriesContrib_lane_zero {r s : String} {samples : List (String × SampleData)}
    (h : ∀ p ∈ samples, ¬ p.1 = s) :
    entriesContribT (prepend_runid r s) (samples.map fun sp => (r, sp.1, sp.2)) = 0
      ∧ entriesContribP (prepend_runid r s) (samples.map fun sp => (r, sp.1, sp.2)) = 0 := by
  induction samples with
  | nil => constructor <;> rfl
  | cons p rest ih =>
    have hne : ¬ prepend_runid r p.1 = prepend_runid r s :=
      fun e => h p (List.mem_cons_self _ _) (prepend_runid_inj e)
    have ih' := ih fun q hq => h q (List.mem_cons_of_mem _ hq)
    constructor
    · simpa [entriesContribT, hne] using ih'.1
    · simpa [entriesContribP, hne] using ih'.2

theorem entriesContrib_lane_single {r s : String} {samples : List (String × SampleData)}
    {sd : SampleData} (hnodup : (samples.map Prod.fst).Nodup)
    (hs : lookup samples s = some sd) :
    entriesContribT (prepend_runid r s) (samples.map fun sp => (r, sp.1, sp.2)) = sd.total
      ∧ entriesContribP (prepend_runid r s) (samples.map fun sp => (r, sp.1, sp.2))
          = sd.perfectIndex := by
  induction samples with
  | nil => cases hs
  | cons p rest ih =>
    rw [List.map_cons, List.nodup_cons] at hnodup
    by_cases hp : p.1 = s
    · have hsd : p.2 = sd := by
        have := hs
        rw [lookup, if_pos hp] at this
        exact Option.some_injective _ this
      have hrest : ∀ q ∈ rest, ¬ q.1 = s := by
        intro q hq e
        apply hnodup.1
        have hmem : q.1 ∈ rest.map Prod.fst := List.mem_map_of_mem Prod.fst hq
        rw [hp, ← e]
        exact hmem
      have hz := entriesContrib_lane_zero (r := r) hrest
      have hkey : prepend_runid r p.1 = prepend_runid r s := by rw [hp]
      constructor
      · simp [entriesContribT, hkey, hsd]
        simpa [entriesContribT] using hz.1
      · simp [entriesContribP, hkey, hsd]
        simpa [entriesContribP] using hz.2
    · have hs' : lookup rest s = some sd := by
        have := hs
        rw [lookup, if_neg hp] at this
        exact this
      have hne : ¬ prepend_runid r p.1 = prepend_runid r s :=
        fun e => hp (prepend_runid_inj e)
      have ih' := ih hnodup.2 hs'
      constructor
      · simpa [entriesContribT, hne] using ih'.1
      · simpa [entriesContribP, hne] using ih'.2

/-! ## One-file and log-stream facts about ingestion -/

theorem parse_single {d : Bcl2FastqData} {f : InputFile} {c : ReportContent}
    {cr : ConversionResult} (hc : f.content = some c) (hcr : c.conversionResults = [cr]) :
    parse_file_as_json d f
      = (upsert c.runId
          (upsert (laneKey cr.laneNumber) (buildLane (pathJoin f.root f.fn) cr)
            ((lookup d c.runId).getD [])) d,
         if (lookup ((lookup d c.runId).getD []) (laneKey cr.laneNumber)).isSome
         then [dupLaneMsg c.runId (laneKey cr.laneNumber)] else []) := by
  rw [parse_file_as_json, hc]
  simp only [hcr, List.foldl_cons, List.foldl_nil, processConversionResult]
  by_cases h : (lookup ((lookup d c.runId).getD []) (laneKey cr.laneNumber)).isSome
  · simp [h]
  · simp [h]

theorem ingestFrom_logs_prefix (files : List InputFile) :
    ∀ (d : Bcl2FastqData) (logs : List String),
      ∃ tail, (ingestFrom d logs files).2 = logs ++ tail := by
  induction files with
  | nil => exact fun d logs => ⟨[], by simp [ingestFrom]⟩
  | cons f rest ih =>
    intro d logs
    rcases ih (parse_file_as_json d f).1 (logs ++ (parse_file_as_json d f).2)
      with ⟨tail, ht⟩
    exact ⟨(parse_file_as_json d f).2 ++ tail, by rw [ingestFrom, ht, List.append_assoc]⟩

theorem badJson_mem_logs (files : List InputFile) :
    ∀ (d : Bcl2FastqData) (logs : List String) (f : InputFile), f ∈ files →
      f.content = none → badJsonMsg f.fn ∈ (ingestFrom d logs files).2 := by
  induction files with
  | nil => intro d logs f hf; cases hf
  | cons g rest ih =>
    intro d logs f hf hc
    rcases List.mem_cons.1 hf with rfl | hf'
    · have hp : (parse_file_as_json d f).2 = [badJsonMsg f.fn] := by
        rw [parse_file_as_json, hc]
      rcases ingestFrom_logs_prefix rest (parse_file_as_json d f).1
        (logs ++ (parse_file_as_json d f).2) with ⟨tail, ht⟩
      rw [ingestFrom, ht, hp]
      simp
    · exact ih _ _ f hf' hc

theorem ingest_data_filter (files : List InputFile) :
    ∀ d : Bcl2FastqData,
      files.foldl (fun d f => (parse_file_as_json d f).1) d
        = (files.filter fun f => f.content.isSome).foldl
            (fun d f => (parse_file_as_json d f).1) d := by
  induction files with
  | nil => intro d; rfl
  | cons f rest ih =>
    intro d
    rcases hc : f.content with _ | c
    · have hd : (parse_file_as_json d f).1 = d := by rw [parse_file_as_json, hc]
      rw [List.foldl_cons, hd, List.filter_cons]
      simp only [hc, Option.isSome_none, Bool.false_eq_true, if_false]
      exact ih d
    · rw [List.foldl_cons, List.filter_cons]
      simp only [hc, Option.isSome_some, if_true]
      rw [List.foldl_cons]
      exact ih (parse_file_as_json d f).1

/-! ## General-statistics lemmas -/

theorem roundNearestEven_one (a : Nat) : roundNearestEven a 1 = a := by
  simp [roundNearestEven, Nat.mod_one, Nat.div_one]

theorem log2Aux_self_le : ∀ (fuel n : Nat), n ≠ 0 → n ≤ fuel → 2 ^ log2Aux fuel n ≤ n := by
  intro fuel
  induction fuel with
  | zero => intro n hn hf; omega
  | succ fuel ih =>
    intro n hn hf
    rw [log2Aux]
    by_cases h1 : n ≤ 1
    · rw [if_pos h1]
      omega
    · rw [if_neg h1, pow_succ]
      have hhalf : 2 ^ log2Aux fuel (n / 2) ≤ n / 2 :=
        ih (n / 2) (by omega) (by omega)
      omega

theorem natLog2_self_le {n : Nat} (hn : n ≠ 0) : 2 ^ natLog2 n ≤ n :=
  log2Aux_self_le n n hn (Nat.le_refl n)

theorem div_le_roundNearestEven (a b : Nat) : a / b ≤ roundNearestEven a b := by
  rw [roundNearestEven]
  by_cases h1 : b < 2 * (a % b)
  · simp only [h1, if_pos]
    omega
  · by_cases h2 : 2 * (a % b) < b
    · simp [h1, h2]
    · by_cases h3 : a / b % 2 = 0
      · simp [h1, h2, h3]
      · simp only [h1, h2, h3, if_neg, if_false]
        omega

theorem qexp_int {n : Nat} (hn : n ≠ 0) : qexp n 1 = (natLog2 n : Int) - 52 := by
  have hge : geTwoPow n 1 ((natLog2 n : Int) - (natLog2 1 : Int)) = true := by
    have h1 : natLog2 1 = 0 := rfl
    rw [geTwoPow, h1]
    simp only [Nat.cast_zero, sub_zero]
    rw [if_pos (Int.ofNat_nonneg _)]
    simp only [Int.toNat_natCast, one_mul, decide_eq_true_eq]
    exact natLog2_self_le hn
  rw [qexp, hge]
  simp only [if_true]
  have h1 : natLog2 1 = 0 := rfl
  rw [h1]
  have h2 : (0 : Int) ≤ (natLog2 n : Int) := Int.ofNat_nonneg _
  omega

theorem roundQm_int_pos {n : Nat} (hn : n ≠ 0) : roundQm n 1 (qexp n 1) ≠ 0 := by
  rw [qexp_int hn, roundQm]
  by_cases hq : (0 : Int) ≤ (natLog2 n : Int) - 52
  · rw [if_pos hq]
    have htn : ((natLog2 n : Int) - 52).toNat = natLog2 n - 52 := by
      omega
    rw [htn, one_mul]
    have hle : 2 ^ (natLog2 n - 52) ≤ n := by
      calc 2 ^ (natLog2 n - 52) ≤ 2 ^ natLog2 n :=
            Nat.pow_le_pow_right (by omega) (by omega)
        _ ≤ n := natLog2_self_le hn
    have hdiv : 1 ≤ n / 2 ^ (natLog2 n - 52) :=
      (Nat.one_le_div_iff (Nat.pos_pow_of_pos _ (by omega))).2 hle
    have hrd := div_le_roundNearestEven n (2 ^ (natLog2 n - 52))
    omega
  · rw [if_neg hq, roundNearestEven_one]
    have hpos : 0 < n * 2 ^ (-((natLog2 n : Int) - 52)).toNat :=
      Nat.mul_pos (Nat.pos_of_ne_zero hn) (Nat.pos_pow_of_pos _ (by omega))
    omega

theorem toD_isZero_iff {n : Nat} {f : PyFloat} (h : toD n = some f) :
    f.isZero = true ↔ n = 0 := by
  by_cases hn : n = 0
  · subst hn
    have h0 : toD 0 = some (.finite 0 0) := rfl
    rw [h0] at h
    rw [← Option.some_injective _ h]
    simp [PyFloat.isZero]
  · constructor
    · intro hz
      exfalso
      rw [toD] at h
      rcases hr : roundQ n 1 with ⟨m0, e0⟩ | _
      · rw [hr] at h
        have hf : f = .finite m0 e0 := (Option.some_injective _ h).symm
        rw [hf, PyFloat.isZero, decide_eq_true_eq] at hz
        rw [roundQ, if_neg hn] at hr
        simp only at hr
        by_cases hb : (972 : Int) ≤ (if roundQm n 1 (qexp n 1) = 2 ^ 53
            then qexp n 1 + 1 else qexp n 1)
        · rw [if_pos hb] at hr
          cases hr
        · rw [if_neg hb] at hr
          have hm0 : m0 = if roundQm n 1 (qexp n 1) = 2 ^ 53
              then 2 ^ 52 else roundQm n 1 (qexp n 1) := by
            cases hr
            rfl
          by_cases h53 : roundQm n 1 (qexp n 1) = 2 ^ 53
          · rw [if_pos h53] at hm0
            rw [hm0] at hz
            exact absurd hz (by positivity)
          · rw [if_neg h53] at hm0
            rw [hm0] at hz
            exact roundQm_int_pos hn hz
      · rw [hr] at h
        cases h
    · intro h0
      exact absurd h0 hn

theorem perfectPercent_eq {agg : SampleAgg} {x z : PyFloat}
    (hx : toD agg.perfectIndex = some x) (hz : toD agg.total = some z) :
    perfectPercent agg = if agg.total = 0 then none
      else some (pyFormatPercent agg.perfectIndex agg.total) := by
  rw [perfectPercent, hx, hz, pyFormatPercent, hx, hz]
  by_cases h0 : agg.total = 0
  · have hzt : z.isZero = true := (toD_isZero_iff hz).2 h0
    simp [hzt, h0]
  · have hzr : z.isZero = false := by
      rcases hb : z.isZero with _ | _
      · rfl
      · exact absurd ((toD_isZero_iff hz).1 hb) h0
    simp [hzr, h0]

theorem add_general_stats_none_iff (bs : BySample)
    (hconv : ∀ p ∈ bs, (toD p.2.perfectIndex).isSome ∧ (toD p.2.total).isSome) :
    add_general_stats bs = none ↔ ∃ p ∈ bs, p.2.total = 0 := by
  induction bs with
  | nil => simp [add_general_stats]
  | cons p rest ih =>
    obtain ⟨hx, hz⟩ := hconv p (List.mem_cons_self _ _)
    rcases Option.isSome_iff_exists.1 hx with ⟨x, hx'⟩
    rcases Option.isSome_iff_exists.1 hz with ⟨z, hz'⟩
    have hpp := perfectPercent_eq hx' hz'
    by_cases h0 : p.2.total = 0
    · rw [add_general_stats, hpp, if_pos h0]
      constructor
      · intro _
        exact ⟨p, List.mem_cons_self _ _, h0⟩
      · intro _
        rfl
    · rw [add_general_stats, hpp, if_neg h0]
      simp only [Option.map_eq_none']
      rw [ih fun q hq => hconv q (List.mem_cons_of_mem _ hq)]
      constructor
      · rintro ⟨q, hq, hq0⟩
        exact ⟨q, List.mem_cons_of_mem _ hq, hq0⟩
      · rintro ⟨q, hq, hq0⟩
        rcases List.mem_cons.1 hq with rfl | hq'
        · exact absurd hq0 h0
        · exact ⟨q, hq', hq0⟩

theorem add_general_stats_pos (bs : BySample)
    (hconv : ∀ p ∈ bs, (toD p.2.perfectIndex).isSome ∧ (toD p.2.total).isSome) :
    (∀ p ∈ bs, 0 < p.2.total) →
    add_general_stats bs = some (bs.map fun p =>
      (p.1, ⟨p.2.total, pyFormatPercent p.2.perfectIndex p.2.total⟩)) := by
  induction bs with
  | nil => intro _; rfl
  | cons p rest ih =>
    intro h
    obtain ⟨hx, hz⟩ := hconv p (List.mem_cons_self _ _)
    rcases Option.isSome_iff_exists.1 hx with ⟨x, hx'⟩
    rcases Option.isSome_iff_exists.1 hz with ⟨z, hz'⟩
    have h0 : ¬ p.2.total = 0 := Nat.pos_iff_ne_zero.1 (h p (List.mem_cons_self _ _))
    rw [add_general_stats, perfectPercent_eq hx' hz', if_neg h0,
      ih (fun q hq => hconv q (List.mem_cons_of_mem _ hq))
        (fun q hq => h q (List.mem_cons_of_mem _ hq))]
    rfl

/-! ## Sum of the per-sample totals stored in a lane's samples mapping -/

/-- Sum of the `total` fields over a samples mapping. -/
def samplesTotalSum (m : List (String × SampleData)) : Nat :=
  (m.map fun p => p.2.total).sum

theorem upsert_of_lookup_none {β : Type} {m : List (String × β)} {k : String} (v : β)
    (h : lookup m k = none) : upsert k v m = m ++ [(k, v)] := by
  induction m with
  | nil => rfl
  | cons p rest ih =>
    by_cases hp : p.1 = k
    · rw [lookup, if_pos hp] at h
      cases h
    · rw [lookup, if_neg hp] at h
      rw [upsert, if_neg hp, ih h]
      rfl

theorem upsert_append_last {β : Type} {m : List (String × β)} {k : String} (v w : β)
    (h : lookup m k = none) : upsert k v (m ++ [(k, w)]) = m ++ [(k, v)] := by
  induction m with
  | nil => simp [upsert]
  | cons p rest ih =>
    by_cases hp : p.1 = k
    · rw [lookup, if_pos hp] at h
      cases h
    · rw [lookup, if_neg hp] at h
      rw [List.cons_append, upsert, if_neg hp, ih h]
      rfl

theorem lookup_demuxFold_none {fn k : String} (ds : List DemuxResult) :
    ∀ acc : LaneData, (∀ e ∈ ds, ¬ e.sampleName = k) → lookup acc.samples k = none →
      lookup ((ds.foldl (processDemux fn) acc).samples) k = none := by
  induction ds with
  | nil => intro acc _ h; exact h
  | cons e rest ih =>
    intro acc hds hacc
    rw [List.foldl_cons]
    apply ih
    · exact fun q hq => hds q (List.mem_cons_of_mem _ hq)
    · show lookup (upsert e.sampleName _ acc.samples) k = none
      rw [lookup_upsert, if_neg]
      · exact hacc
      · exact fun hk => hds e (List.mem_cons_self _ _) hk.symm

theorem demuxFold_sum (fn : String) (ds : List DemuxResult) :
    ∀ acc : LaneData, (ds.map DemuxResult.sampleName).Nodup →
      (∀ e ∈ ds, lookup acc.samples e.sampleName = none) →
      samplesTotalSum ((ds.foldl (processDemux fn) acc).samples)
        = samplesTotalSum acc.samples + (ds.map DemuxResult.numberReads).sum := by
  induction ds with
  | nil => intro acc _ _; simp
  | cons e rest ih =>
    intro acc hnodup hnone
    rw [List.map_cons, List.nodup_cons] at hnodup
    rw [List.foldl_cons]
    have hup : (processDemux fn acc e).samples
        = acc.samples ++ [(e.sampleName,
            ⟨e.numberReads, sumMismatch0 e.indexMetrics, some fn⟩)] :=
      upsert_of_lookup_none _ (hnone e (List.mem_cons_self _ _))
    have hrest : ∀ q ∈ rest, lookup (processDemux fn acc e).samples q.sampleName = none := by
      intro q hq
      show lookup (upsert e.sampleName _ acc.samples) q.sampleName = none
      rw [lookup_upsert, if_neg]
      · exact hnone q (List.mem_cons_of_mem _ hq)
      · intro hk
        exact hnodup.1 (hk ▸ List.mem_map_of_mem DemuxResult.sampleName hq)
    rw [ih _ hnodup.2 hrest, hup]
    simp [samplesTotalSum]
    omega

/-! ## Ingesting files with a single conversion result -/

theorem ingest_one_single {f : InputFile} {c : ReportContent} {cr : ConversionResult}
    (hc : f.content = some c) (hcr : c.conversionResults = [cr]) :
    (ingestAll [f]).1
      = [(c.runId, [(laneKey cr.laneNumber, buildLane (pathJoin f.root f.fn) cr)])] := by
  rw [ingestAll, ingestFrom_fst, List.foldl_cons, List.foldl_nil, parse_single hc hcr]
  rfl

theorem ingest_two_single {f1 f2 : InputFile} {c1 c2 : ReportContent}
    {cr1 cr2 : ConversionResult}
    (h1 : f1.content = some c1) (h2 : f2.content = some c2)
    (hrun : c2.runId = c1.runId)
    (hcr1 : c1.conversionResults = [cr1]) (hcr2 : c2.conversionResults = [cr2])
    (hlk : ¬ laneKey cr1.laneNumber = laneKey cr2.laneNumber) :
    (ingestAll [f1, f2]).1
      = [(c1.runId,
          [(laneKey cr1.laneNumber, buildLane (pathJoin f1.root f1.fn) cr1),
           (laneKey cr2.laneNumber, buildLane (pathJoin f2.root f2.fn) cr2)])] := by
  rw [ingestAll, ingestFrom_fst, List.foldl_cons, List.foldl_cons, List.foldl_nil,
    parse_single h1 hcr1]
  simp only [lookup, Option.getD_none]
  rw [parse_single h2 hcr2, hrun]
  simp [lookup, upsert, hlk]

theorem sampleEntries_one (r l : String) (B : LaneData) :
    sampleEntries [(r, [(l, B)])] = B.samples.map fun sp => (r, sp.1, sp.2) := by
  simp [sampleEntries]

theorem sampleEntries_two (r l1 l2 : String) (B1 B2 : LaneData) :
    sampleEntries [(r, [(l1, B1), (l2, B2)])]
      = (B1.samples.map fun sp => (r, sp.1, sp.2))
        ++ B2.samples.map fun sp => (r, sp.1, sp.2) := by
  simp [sampleEntries]

/-! ## Concrete inputs used by the claim witnesses -/

/-- The spec's end-to-end example input file. -/
def exampleFile : InputFile :=
  ⟨"analysis", "Stats.json",
   some ⟨"RUN1", [⟨1, 10, [⟨"S1", 100, [⟨90⟩]⟩]⟩]⟩⟩

/-- The lane record the example file produces. -/
def exampleLane : LaneData :=
  ⟨100, 90, [("S1", ⟨100, 90, some "analysis/Stats.json"⟩),
             ("undetermined", ⟨10, 0, none⟩)]⟩

/-- A file whose body fails JSON parsing. -/
def brokenFile : InputFile := ⟨"analysis", "Broken.json", none⟩

/-! ## The claims -/

/-- C1: for the single-file input with RunId "RUN1", one ConversionResults
entry with LaneNumber 1, Undetermined.NumberReads 10, and one DemuxResults
entry with SampleName "S1", NumberReads 100, IndexMetrics
[{"MismatchCounts":{"0":90}}], ingestion followed by reshape produces
exactly the by-lane key "RUN1 - L1" mapped to
{total: 100, perfectIndex: 90, undetermined: 10}, the by-sample key
"RUN1 - S1" mapped to {total: 100, perfectIndex: 90}, and the by-sample
key "RUN1 - undetermined" mapped to {total: 10, perfectIndex: 0}. -/
theorem c1_example_end_to_end :
    split_data_by_lane_and_sample (ingestAll [exampleFile]).1
      = some ([("RUN1 - L1", ⟨100, 90, 10⟩)],
          [("RUN1 - S1", ⟨100, 90⟩), ("RUN1 - undetermined", ⟨10, 0⟩)],
          [("RUN1 - S1", ["analysis/Stats.json"])]) := by
  decide

/-- C2: for every well-formed ingested report and every lane in it, the
by-lane record's total equals the sum of NumberReads over the lane's
DemuxResults entries only; the undetermined read count is not part of
that sum and is carried in the separate undetermined field. -/
theorem c2_bylane_total_excludes_undetermined
    (files : List InputFile) (runId lane : String) (rd : RunData) (ld : LaneData)
    (h1 : lookup (ingestAll files).1 runId = some rd)
    (h2 : lookup rd lane = some ld) :
    ∃ f ∈ files, ∃ c, f.content = some c ∧ c.runId = runId ∧
      ∃ cr ∈ c.conversionResults, laneKey cr.laneNumber = lane
        ∧ ld.total = (cr.demuxResults.map DemuxResult.numberReads).sum
        ∧ mkLaneAgg ld
            = some ⟨ld.total, ld.perfectIndex, cr.undeterminedNumberReads⟩ := by
  rw [ingestAll, ingestFrom_fst] at h1
  rcases ingest_lane_lookup h1 h2 with ⟨rd0, hl, _⟩ | ⟨f, hf, c, hc, hr, cr, hcr, hlk, hld⟩
  · simp [lookup] at hl
  · exact ⟨f, hf, c, hc, hr, cr, hcr, hlk,
      by rw [hld, buildLane_total], by rw [hld, mkLaneAgg_buildLane]⟩

/-- C2 witness: the example lane's record satisfies the conclusion. -/
theorem c2_bylane_total_excludes_undetermined_witness :
    ∃ f ∈ [exampleFile], ∃ c, f.content = some c ∧ c.runId = "RUN1" ∧
      ∃ cr ∈ c.conversionResults, laneKey cr.laneNumber = "L1"
        ∧ exampleLane.total = (cr.demuxResults.map DemuxResult.numberReads).sum
        ∧ mkLaneAgg exampleLane
            = some ⟨exampleLane.total, exampleLane.perfectIndex,
                cr.undeterminedNumberReads⟩ :=
  c2_bylane_total_excludes_undetermined [exampleFile] "RUN1" "L1"
    [("L1", exampleLane)] exampleLane (by decide) (by decide)

/-- C4: for a file reporting the identical RunId and lane number twice,
the later lane record fully replaces the earlier one in the per-run
tree (its total, perfectIndex and samples mapping are exactly those
derived from the second entry alone), and a diagnostic naming the
qualified run-lane key is logged. -/
theorem c4_duplicate_lane_last_write_wins
    (d : Bcl2FastqData) (f : InputFile) (c : ReportContent) (cr1 cr2 : ConversionResult)
    (hc : f.content = some c) (hcr : c.conversionResults = [cr1, cr2])
    (hlk : laneKey cr1.laneNumber = laneKey cr2.laneNumber) :
    (∃ rd, lookup (parse_file_as_json d f).1 c.runId = some rd
        ∧ lookup rd (laneKey cr2.laneNumber)
            = some (buildLane (pathJoin f.root f.fn) cr2))
      ∧ dupLaneMsg c.runId (laneKey cr2.laneNumber) ∈ (parse_file_as_json d f).2
      ∧ ∀ (d' : Bcl2FastqData) (g : InputFile) (c' : ReportContent)
          (cr : ConversionResult) (rd0 : RunData),
          g.content = some c' → c'.conversionResults = [cr] →
          lookup d' c'.runId = some rd0 →
          (lookup rd0 (laneKey cr.laneNumber)).isSome →
          (∃ rd', lookup (parse_file_as_json d' g).1 c'.runId = some rd'
              ∧ lookup rd' (laneKey cr.laneNumber)
                  = some (buildLane (pathJoin g.root g.fn) cr))
            ∧ (parse_file_as_json d' g).2
                = [dupLaneMsg c'.runId (laneKey cr.laneNumber)] := by
  have h1 : processConversionResult c.runId (pathJoin f.root f.fn)
      ((lookup d c.runId).getD [], []) cr1
      = (upsert (laneKey cr1.laneNumber) (buildLane (pathJoin f.root f.fn) cr1)
          ((lookup d c.runId).getD []),
         if (lookup ((lookup d c.runId).getD []) (laneKey cr1.laneNumber)).isSome
         then [dupLaneMsg c.runId (laneKey cr1.laneNumber)] else []) := by
    by_cases hb : (lookup ((lookup d c.runId).getD []) (laneKey cr1.laneNumber)).isSome
    · simp [processConversionResult, hb]
    · simp [processConversionResult, hb]
  have h2 : (lookup (upsert (laneKey cr1.laneNumber)
      (buildLane (pathJoin f.root f.fn) cr1) ((lookup d c.runId).getD []))
      (laneKey cr2.laneNumber)).isSome := by
    rw [← hlk, lookup_upsert, if_pos rfl]
    rfl
  have hfold : List.foldl (processConversionResult c.runId (pathJoin f.root f.fn))
      ((lookup d c.runId).getD [], []) [cr1, cr2]
      = (upsert (laneKey cr2.laneNumber) (buildLane (pathJoin f.root f.fn) cr2)
          (upsert (laneKey cr1.laneNumber) (buildLane (pathJoin f.root f.fn) cr1)
            ((lookup d c.runId).getD [])),
         (if (lookup ((lookup d c.runId).getD []) (laneKey cr1.laneNumber)).isSome
          then [dupLaneMsg c.runId (laneKey cr1.laneNumber)] else [])
          ++ [dupLaneMsg c.runId (laneKey cr2.laneNumber)]) := by
    rw [List.foldl_cons, List.foldl_cons, List.foldl_nil, h1]
    simp [processConversionResult, h2]
  have hparse : parse_file_as_json d f
      = (upsert c.runId
          (upsert (laneKey cr2.laneNumber) (buildLane (pathJoin f.root f.fn) cr2)
            (upsert (laneKey cr1.laneNumber) (buildLane (pathJoin f.root f.fn) cr1)
              ((lookup d c.runId).getD []))) d,
         (if (lookup ((lookup d c.runId).getD []) (laneKey cr1.laneNumber)).isSome
          then [dupLaneMsg c.runId (laneKey cr1.laneNumber)] else [])
          ++ [dupLaneMsg c.runId (laneKey cr2.laneNumber)]) := by
    rw [parse_file_as_json, hc]
    simp only [hcr]
    rw [hfold]
  rw [hparse]
  refine ⟨⟨upsert (laneKey cr2.laneNumber) (buildLane (pathJoin f.root f.fn) cr2)
      (upsert (laneKey cr1.laneNumber) (buildLane (pathJoin f.root f.fn) cr1)
        ((lookup d c.runId).getD [])), ?_, ?_⟩, ?_, ?_⟩
  · rw [lookup_upsert, if_pos rfl]
  · rw [lookup_upsert, if_pos rfl]
  · simp
  · intro d' g c' cr rd0 hgc hgcr hlook hpresent
    rw [parse_single hgc hgcr, hlook]
    simp only [Option.getD_some]
    constructor
    · refine ⟨upsert (laneKey cr.laneNumber) (buildLane (pathJoin g.root g.fn) cr) rd0,
        ?_, ?_⟩
      · show lookup (upsert c'.runId _ d') c'.runId = _
        rw [lookup_upsert, if_pos rfl]
      · rw [lookup_upsert, if_pos rfl]
    · show (if (lookup rd0 (laneKey cr.laneNumber)).isSome
          then [dupLaneMsg c'.runId (laneKey cr.laneNumber)] else []) = _
      rw [if_pos hpresent]

/-- C4 witness: a concrete file that reports lane 1 twice. -/
theorem c4_duplicate_lane_last_write_wins_witness :
    (∃ rd, lookup (parse_file_as_json []
        ⟨"run", "D.json", some ⟨"RUN1", [⟨1, 2, []⟩, ⟨1, 3, [⟨"B", 6, [⟨5⟩]⟩]⟩]⟩⟩).1
        "RUN1" = some rd
      ∧ lookup rd (laneKey (1 : Nat))
          = some (buildLane "run/D.json" ⟨1, 3, [⟨"B", 6, [⟨5⟩]⟩]⟩))
    ∧ dupLaneMsg "RUN1" (laneKey (1 : Nat)) ∈ (parse_file_as_json []
        ⟨"run", "D.json", some ⟨"RUN1", [⟨1, 2, []⟩, ⟨1, 3, [⟨"B", 6, [⟨5⟩]⟩]⟩]⟩⟩).2 := by
  have h := c4_duplicate_lane_last_write_wins []
    ⟨"run", "D.json", some ⟨"RUN1", [⟨1, 2, []⟩, ⟨1, 3, [⟨"B", 6, [⟨5⟩]⟩]⟩]⟩⟩
    ⟨"RUN1", [⟨1, 2, []⟩, ⟨1, 3, [⟨"B", 6, [⟨5⟩]⟩]⟩]⟩
    ⟨1, 2, []⟩ ⟨1, 3, [⟨"B", 6, [⟨5⟩]⟩]⟩ rfl rfl rfl
  exact ⟨h.1, h.2.1⟩

set_option maxRecDepth 8000 in
/-- C5: for samples whose counts convert to float (below the ~1.8e308
int-to-float overflow bound, always true of read counts), the
general-statistics computation fails with the fatal division-by-zero
error exactly when some retained sample has total 0; when all totals
are positive it succeeds, rendering for each sample
100.0 * perfectIndex / total through the double-precision pipeline
formatted to one decimal place, and the sample with total 200 and
perfectIndex 150 renders as "75.0". -/
theorem c5_general_stats_division (bs : BySample)
    (hconv : ∀ p ∈ bs, (toD p.2.perfectIndex).isSome ∧ (toD p.2.total).isSome) :
    (add_general_stats bs = none ↔ ∃ p ∈ bs, p.2.total = 0)
      ∧ ((∀ p ∈ bs, 0 < p.2.total) →
          add_general_stats bs = some (bs.map fun p =>
            (p.1, ⟨p.2.total, pyFormatPercent p.2.perfectIndex p.2.total⟩)))
      ∧ perfectPercent ⟨200, 150⟩ = some "75.0" :=
  ⟨add_general_stats_none_iff bs hconv, add_general_stats_pos bs hconv, by decide⟩

set_option maxRecDepth 8000 in
/-- C5 witness: a concrete by-sample mapping with positive totals. -/
theorem c5_general_stats_division_witness :
    add_general_stats [("RUN1 - S1", ⟨200, 150⟩)]
      = some [("RUN1 - S1", ⟨200, "75.0"⟩)] :=
  (c5_general_stats_division [("RUN1 - S1", ⟨200, 150⟩)] (by decide)).2.1 (by decide)

/-- C6: after ignore-filtering, the module signals the non-fatal
"nothing to report" condition exactly when both the by-lane and the
by-sample mappings are empty; when at least one is non-empty (and the
statistics computation succeeds) it produces its report outputs. -/
theorem c6_nothing_to_report (keep : String → Bool) (bylane : ByLane)
    (bysample : BySample) (sf : SourceFiles) :
    (moduleAfterSplit keep bylane bysample sf = some ModuleResult.noData
        ↔ bylane.filter (fun kv => keep kv.1) = []
            ∧ bysample.filter (fun kv => keep kv.1) = [])
      ∧ ∀ stats, add_general_stats (bysample.filter fun kv => keep kv.1) = some stats →
          ¬ (bylane.filter (fun kv => keep kv.1) = []
              ∧ bysample.filter (fun kv => keep kv.1) = []) →
          moduleAfterSplit keep bylane bysample sf
            = some (ModuleResult.report (bylane.filter fun kv => keep kv.1)
                (bysample.filter fun kv => keep kv.1) sf stats) := by
  constructor
  · by_cases hcond : (bylane.filter fun kv => keep kv.1).length = 0
        ∧ (bysample.filter fun kv => keep kv.1).length = 0
    · constructor
      · intro _
        exact ⟨List.length_eq_zero.1 hcond.1, List.length_eq_zero.1 hcond.2⟩
      · intro _
        simp [moduleAfterSplit, hcond]
    · constructor
      · intro h
        exfalso
        rw [moduleAfterSplit] at h
        simp only [if_neg hcond] at h
        rcases hst : add_general_stats (bysample.filter fun kv => keep kv.1)
          with _ | stats
        · rw [hst] at h
          cases h
        · rw [hst, Option.map_some'] at h
          cases h
      · intro ⟨ha, hb⟩
        exact absurd ⟨by rw [ha]; rfl, by rw [hb]; rfl⟩ hcond
  · intro stats hst hne
    have hcond : ¬ ((bylane.filter fun kv => keep kv.1).length = 0
        ∧ (bysample.filter fun kv => keep kv.1).length = 0) := by
      intro ⟨ha, hb⟩
      exact hne ⟨List.length_eq_zero.1 ha, List.length_eq_zero.1 hb⟩
    rw [moduleAfterSplit]
    simp only [if_neg hcond, hst, Option.map_some']

/-- C6 witness: a keep-predicate that filters everything out yields the
non-fatal no-data signal. -/
theorem c6_nothing_to_report_witness :
    moduleAfterSplit (fun _ => false) [("RUN1 - L1", ⟨1, 1, 0⟩)]
      [("RUN1 - S1", ⟨1, 1⟩)] [] = some ModuleResult.noData :=
  (c6_nothing_to_report (fun _ => false) [("RUN1 - L1", ⟨1, 1, 0⟩)]
    [("RUN1 - S1", ⟨1, 1⟩)] []).1.2 ⟨by decide, by decide⟩

/-- C7: an unparsable file is skipped with a logged diagnostic,
ingestion continues, and the resulting tree equals the one obtained by
ingesting only the parseable files. -/
theorem c7_unparsable_file_skipped (d : Bcl2FastqData) (logs : List String)
    (files : List InputFile) :
    (ingestFrom d logs files).1
        = (ingestFrom d logs (files.filter fun f => f.content.isSome)).1
      ∧ ∀ f ∈ files, f.content = none →
          parse_file_as_json d f = (d, [badJsonMsg f.fn])
            ∧ badJsonMsg f.fn ∈ (ingestFrom d logs files).2 := by
  refine ⟨?_, ?_⟩
  · rw [ingestFrom_fst, ingestFrom_fst]
    exact ingest_data_filter files d
  · intro f hf hc
    exact ⟨by rw [parse_file_as_json, hc], badJson_mem_logs files d logs f hf hc⟩

/-- C7 witness: one good and one broken file. -/
theorem c7_unparsable_file_skipped_witness :
    ((ingestFrom [] [] [exampleFile, brokenFile]).1
        = (ingestFrom [] [] ([exampleFile, brokenFile].filter
            fun f => f.content.isSome)).1
      ∧ ∀ f ∈ [exampleFile, brokenFile], f.content = none →
          parse_file_as_json [] f = ([], [badJsonMsg f.fn])
            ∧ badJsonMsg f.fn ∈ (ingestFrom [] [] [exampleFile, brokenFile]).2) :=
  c7_unparsable_file_skipped [] [] [exampleFile, brokenFile]

/-- C8: the synthetic "undetermined" sample entry is present in every
lane record ingestion builds, so the reshape step's lookups never fail
(reshape of any ingested tree succeeds), and a lane with an empty
DemuxResults list yields the well-formed by-lane record
{total: 0, perfectIndex: 0, undetermined: Undetermined.NumberReads}. -/
theorem c8_undetermined_entry_always_present (files : List InputFile)
    (fn : String) (cr : ConversionResult) :
    lookup (buildLane fn cr).samples "undetermined"
        = some ⟨cr.undeterminedNumberReads, 0, none⟩
      ∧ (∃ q, split_data_by_lane_and_sample (ingestAll files).1 = some q)
      ∧ (cr.demuxResults = [] →
          mkLaneAgg (buildLane fn cr) = some ⟨0, 0, cr.undeterminedNumberReads⟩) := by
  refine ⟨buildLane_lookup_und fn cr, ?_, ?_⟩
  · apply split_some_of_WF
    rw [ingestAll, ingestFrom_fst]
    exact WFdata_ingest files (by intro rp hrp; cases hrp)
  · intro hempty
    rw [mkLaneAgg_buildLane]
    simp [buildLane_total, buildLane_perfectIndex, hempty]

/-- C8 witness: an empty lane from a concrete report. -/
theorem c8_undetermined_entry_always_present_witness :
    mkLaneAgg (buildLane "run/E.json" ⟨2, 7, []⟩) = some ⟨0, 0, 7⟩
      ∧ ∃ q, split_data_by_lane_and_sample (ingestAll [exampleFile]).1 = some q :=
  ⟨(c8_undetermined_entry_always_present [exampleFile] "run/E.json" ⟨2, 7, []⟩).2.2 rfl,
   (c8_undetermined_entry_always_present [exampleFile] "run/E.json" ⟨2, 7, []⟩).2.1⟩

/-- C10: when a file's content fails JSON parsing, the accumulated
per-run tree is returned completely unchanged. -/
theorem c10_parse_failure_atomic (d : Bcl2FastqData) (f : InputFile)
    (h : f.content = none) : (parse_file_as_json d f).1 = d := by
  rw [parse_file_as_json, h]

/-- C10 witness: a broken file leaves a concrete tree unchanged. -/
theorem c10_parse_failure_atomic_witness :
    brokenFile.content = none
      ∧ (parse_file_as_json [("RUN1", [])] brokenFile).1 = [("RUN1", [])] :=
  ⟨rfl, c10_parse_failure_atomic [("RUN1", [])] brokenFile rfl⟩

/-- C3: for two input files sharing the same RunId but reporting
distinct lane numbers, and any sample name present in both lanes, the
merged by-sample aggregate under "runId - sampleName" has total and
perfectIndex each equal to the sum of the sample's per-lane
contributions. -/
theorem c3_cross_lane_sample_merge
    (f1 f2 : InputFile) (c1 c2 : ReportContent) (cr1 cr2 : ConversionResult)
    (s : String) (sd1 sd2 : SampleData) (bl : ByLane) (bs : BySample) (sf : SourceFiles)
    (h1 : f1.content = some c1) (h2 : f2.content = some c2)
    (hrun : c2.runId = c1.runId)
    (hcr1 : c1.conversionResults = [cr1]) (hcr2 : c2.conversionResults = [cr2])
    (hlanes : cr1.laneNumber ≠ cr2.laneNumber)
    (hs1 : lookup (buildLane (pathJoin f1.root f1.fn) cr1).samples s = some sd1)
    (hs2 : lookup (buildLane (pathJoin f2.root f2.fn) cr2).samples s = some sd2)
    (hsplit : split_data_by_lane_and_sample (ingestAll [f1, f2]).1 = some (bl, bs, sf)) :
    lookup bs (prepend_runid c1.runId s)
      = some ⟨sd1.total + sd2.total, sd1.perfectIndex + sd2.perfectIndex⟩ := by
  have hlk : ¬ laneKey cr1.laneNumber = laneKey cr2.laneNumber :=
    fun e => hlanes (laneKey_inj e)
  have hdata := ingest_two_single h1 h2 hrun hcr1 hcr2 hlk
  have hfold := split_entries hsplit
  rw [hdata, sampleEntries_two] at hfold
  have hval := entriesFold_aggAt _ [] [] bs sf hfold (prepend_runid c1.runId s)
  have hmem1 : (c1.runId, s, sd1)
      ∈ ((buildLane (pathJoin f1.root f1.fn) cr1).samples.map
          fun sp => (c1.runId, sp.1, sp.2)) :=
    List.mem_map_of_mem _ (lookup_mem hs1)
  have hsome := entriesFold_key_isSome _ [] [] bs sf hfold (prepend_runid c1.runId s)
    (Or.inr ⟨(c1.runId, s, sd1), List.mem_append_left _ hmem1, rfl⟩)
  have hcL := entriesContrib_lane_single (r := c1.runId)
    (buildLane_keysNodup (pathJoin f1.root f1.fn) cr1) hs1
  have hcR := entriesContrib_lane_single (r := c1.runId)
    (buildLane_keysNodup (pathJoin f2.root f2.fn) cr2) hs2
  rcases Option.isSome_iff_exists.1 hsome with ⟨v, hv⟩
  have hagg : aggAt bs (prepend_runid c1.runId s) = v := by
    rw [aggAt, hv]
    rfl
  have happ := entriesContrib_append (prepend_runid c1.runId s)
    ((buildLane (pathJoin f1.root f1.fn) cr1).samples.map fun sp => (c1.runId, sp.1, sp.2))
    ((buildLane (pathJoin f2.root f2.fn) cr2).samples.map fun sp => (c1.runId, sp.1, sp.2))
  have hT : v.total = sd1.total + sd2.total := by
    have h := hval.1
    rw [hagg, happ.1, hcL.1, hcR.1] at h
    simpa [aggAt, lookup] using h
  have hP : v.perfectIndex = sd1.perfectIndex + sd2.perfectIndex := by
    have h := hval.2
    rw [hagg, happ.2, hcL.2, hcR.2] at h
    simpa [aggAt, lookup] using h
  rw [hv]
  cases v
  simp only [Option.some.injEq, SampleAgg.mk.injEq]
  exact ⟨hT, hP⟩

/-- The two-lane witness files for the cross-lane merge claim. -/
def c3file1 : InputFile := ⟨"run", "L1.json", some ⟨"RUN1", [⟨1, 3, [⟨"S1", 10, [⟨7⟩]⟩]⟩]⟩⟩

/-- Second lane of the same run, same sample name. -/
def c3file2 : InputFile := ⟨"run", "L2.json", some ⟨"RUN1", [⟨2, 4, [⟨"S1", 20, [⟨15⟩]⟩]⟩]⟩⟩

/-- C3 witness: the sample "S1" appearing in lanes 1 and 2 of RUN1 merges
to the sum of its per-lane records. -/
theorem c3_cross_lane_sample_merge_witness :
    lookup [("RUN1 - S1", (⟨30, 22⟩ : SampleAgg)),
        ("RUN1 - undetermined", ⟨7, 0⟩)] (prepend_runid "RUN1" "S1")
      = some ⟨10 + 20, 7 + 15⟩ :=
  c3_cross_lane_sample_merge c3file1 c3file2
    ⟨"RUN1", [⟨1, 3, [⟨"S1", 10, [⟨7⟩]⟩]⟩]⟩ ⟨"RUN1", [⟨2, 4, [⟨"S1", 20, [⟨15⟩]⟩]⟩]⟩
    ⟨1, 3, [⟨"S1", 10, [⟨7⟩]⟩]⟩ ⟨2, 4, [⟨"S1", 20, [⟨15⟩]⟩]⟩
    "S1" ⟨10, 7, some "run/L1.json"⟩ ⟨20, 15, some "run/L2.json"⟩
    [("RUN1 - L1", ⟨10, 7, 3⟩), ("RUN1 - L2", ⟨20, 15, 4⟩)]
    [("RUN1 - S1", ⟨30, 22⟩), ("RUN1 - undetermined", ⟨7, 0⟩)]
    [("RUN1 - S1", ["run/L1.json", "run/L2.json"])]
    rfl rfl rfl rfl rfl (by decide) (by decide) (by decide) (by decide)

/-- A lane whose only demux entry is literally named "undetermined" and
whose read count equals the lane's undetermined count. -/
def c9crEq : ConversionResult := ⟨1, 5, [⟨"undetermined", 5, [⟨3⟩]⟩]⟩

/-- C9 counterexample: with a DemuxResults entry named "undetermined"
carrying 5 reads in a lane whose undetermined count is also 5, the lane
total (5) still equals the sum of the per-sample totals in the samples
mapping (5), refuting the claim's unconditional "the lane total no
longer equals the sum of the per-sample totals". -/
theorem c9_undetermined_named_sample_counterexample :
    c9crEq.demuxResults.map DemuxResult.sampleName = ["undetermined"]
      ∧ (buildLane "run/S.json" c9crEq).total
          = samplesTotalSum (buildLane "run/S.json" c9crEq).samples := by
  decide

/-- C9 (amended): a DemuxResults entry named "undetermined" still has
its NumberReads and zero-mismatch counts added to the lane total and
perfectIndex, but its per-sample record is overwritten by the synthetic
undetermined entry; its individual counts are absent from the by-sample
view (the key carries the synthetic counts) and from the source-file
index; and lane total + undetermined count = sum of per-sample totals +
the entry's NumberReads, so the lane total differs from the sum of the
per-sample totals exactly when the entry's NumberReads differs from the
undetermined count. -/
theorem c9_undetermined_named_sample_amended
    (f : InputFile) (c : ReportContent) (cr : ConversionResult) (ds : List DemuxResult)
    (d : DemuxResult) (bl : ByLane) (bs : BySample) (sf : SourceFiles)
    (hc : f.content = some c) (hcr : c.conversionResults = [cr])
    (hdemux : cr.demuxResults = ds ++ [d]) (hdname : d.sampleName = "undetermined")
    (hds : ∀ e ∈ ds, ¬ e.sampleName = "undetermined")
    (hnodup : (ds.map DemuxResult.sampleName).Nodup)
    (hsplit : split_data_by_lane_and_sample (ingestAll [f]).1 = some (bl, bs, sf)) :
    (buildLane (pathJoin f.root f.fn) cr).total
        = (ds.map DemuxResult.numberReads).sum + d.numberReads
      ∧ (buildLane (pathJoin f.root f.fn) cr).perfectIndex
          = (ds.map fun e => sumMismatch0 e.indexMetrics).sum + sumMismatch0 d.indexMetrics
      ∧ lookup (buildLane (pathJoin f.root f.fn) cr).samples "undetermined"
          = some ⟨cr.undeterminedNumberReads, 0, none⟩
      ∧ lookup bs (prepend_runid c.runId "undetermined")
          = some ⟨cr.undeterminedNumberReads, 0⟩
      ∧ lookup sf (prepend_runid c.runId "undetermined") = none
      ∧ (buildLane (pathJoin f.root f.fn) cr).total + cr.undeterminedNumberReads
          = samplesTotalSum (buildLane (pathJoin f.root f.fn) cr).samples + d.numberReads
      ∧ (d.numberReads ≠ cr.undeterminedNumberReads →
          (buildLane (pathJoin f.root f.fn) cr).total
            ≠ samplesTotalSum (buildLane (pathJoin f.root f.fn) cr).samples) := by
  have htotal : (buildLane (pathJoin f.root f.fn) cr).total
      = (ds.map DemuxResult.numberReads).sum + d.numberReads := by
    rw [buildLane_total, hdemux]
    simp
  have hpi : (buildLane (pathJoin f.root f.fn) cr).perfectIndex
      = (ds.map fun e => sumMismatch0 e.indexMetrics).sum + sumMismatch0 d.indexMetrics := by
    rw [buildLane_perfectIndex, hdemux]
    simp
  have hund := buildLane_lookup_und (pathJoin f.root f.fn) cr
  have hdata := ingest_one_single hc hcr
  have hfold := split_entries hsplit
  rw [hdata, sampleEntries_one] at hfold
  have hmem : ("undetermined", (⟨cr.undeterminedNumberReads, 0, none⟩ : SampleData))
      ∈ (buildLane (pathJoin f.root f.fn) cr).samples := lookup_mem hund
  have hsome := entriesFold_key_isSome _ [] [] bs sf hfold
      (prepend_runid c.runId "undetermined")
      (Or.inr ⟨(c.runId, "undetermined", ⟨cr.undeterminedNumberReads, 0, none⟩),
        List.mem_map_of_mem _ hmem, rfl⟩)
  have hval := entriesFold_aggAt _ [] [] bs sf hfold
      (prepend_runid c.runId "undetermined")
  have hcontrib := entriesContrib_lane_single (r := c.runId)
    (buildLane_keysNodup (pathJoin f.root f.fn) cr) hund
  have hbys : lookup bs (prepend_runid c.runId "undetermined")
      = some ⟨cr.undeterminedNumberReads, 0⟩ := by
    rcases Option.isSome_iff_exists.1 hsome with ⟨v, hv⟩
    have hagg : aggAt bs (prepend_runid c.runId "undetermined") = v := by
      rw [aggAt, hv]
      rfl
    have hT : v.total = cr.undeterminedNumberReads := by
      have h := hval.1
      rw [hagg, hcontrib.1] at h
      simpa [aggAt, lookup] using h
    have hP : v.perfectIndex = 0 := by
      have h := hval.2
      rw [hagg, hcontrib.2] at h
      simpa [aggAt, lookup] using h
    rw [hv]
    cases v
    simp only [Option.some.injEq, SampleAgg.mk.injEq]
    exact ⟨hT, hP⟩
  have hsf : lookup sf (prepend_runid c.runId "undetermined") = none := by
    rcases hl : lookup sf (prepend_runid c.runId "undetermined") with _ | files0
    · rfl
    · exfalso
      have hisSome : (lookup sf (prepend_runid c.runId "undetermined")).isSome := by
        rw [hl]
        rfl
      rcases entriesFold_sf_isSome _ [] [] bs sf hfold _ hisSome
        with hfalse | ⟨e, he, hneq, hkey⟩
      · simp [lookup] at hfalse
      · rcases List.mem_map.1 he with ⟨sp, _, rfl⟩
        exact hneq (prepend_runid_inj hkey)
  have hS0und : lookup ((ds.foldl (processDemux (pathJoin f.root f.fn))
      ⟨0, 0, []⟩).samples) "undetermined" = none :=
    lookup_demuxFold_none ds ⟨0, 0, []⟩ hds rfl
  have hS0sum : samplesTotalSum ((ds.foldl (processDemux (pathJoin f.root f.fn))
      ⟨0, 0, []⟩).samples) = (ds.map DemuxResult.numberReads).sum := by
    rw [demuxFold_sum (pathJoin f.root f.fn) ds ⟨0, 0, []⟩ hnodup (fun e _ => rfl)]
    simp [samplesTotalSum]
  have hbsamples : (buildLane (pathJoin f.root f.fn) cr).samples
      = (ds.foldl (processDemux (pathJoin f.root f.fn)) ⟨0, 0, []⟩).samples
        ++ [("undetermined", ⟨cr.undeterminedNumberReads, 0, none⟩)] := by
    have h1 : (buildLane (pathJoin f.root f.fn) cr).samples
        = upsert "undetermined" ⟨cr.undeterminedNumberReads, 0, none⟩
            ((cr.demuxResults.foldl (processDemux (pathJoin f.root f.fn))
              ⟨0, 0, []⟩).samples) := rfl
    rw [h1, hdemux, List.foldl_append, List.foldl_cons, List.foldl_nil]
    show upsert "undetermined" _ (upsert d.sampleName _ _) = _
    rw [hdname, upsert_of_lookup_none _ hS0und]
    exact upsert_append_last _ _ hS0und
  have hsum : samplesTotalSum (buildLane (pathJoin f.root f.fn) cr).samples
      = (ds.map DemuxResult.numberReads).sum + cr.undeterminedNumberReads := by
    rw [hbsamples]
    simp [samplesTotalSum]
    rw [← hS0sum]
    rfl
  refine ⟨htotal, hpi, hund, hbys, hsf, by rw [htotal, hsum]; omega, ?_⟩
  intro hne heq
  rw [htotal, hsum] at heq
  omega

/-- C9 witness: a lane with one real sample "A" and one entry named
"undetermined" (9 reads) besides an undetermined count of 5. -/
theorem c9_undetermined_named_sample_amended_witness :
    (buildLane "run/S.json" ⟨1, 5, [⟨"A", 4, [⟨2⟩]⟩, ⟨"undetermined", 9, [⟨1⟩]⟩]⟩).total
        ≠ samplesTotalSum (buildLane "run/S.json"
            ⟨1, 5, [⟨"A", 4, [⟨2⟩]⟩, ⟨"undetermined", 9, [⟨1⟩]⟩]⟩).samples
      ∧ lookup [("RUN1 - A", (⟨4, 2⟩ : SampleAgg)), ("RUN1 - undetermined", ⟨5, 0⟩)]
          (prepend_runid "RUN1" "undetermined") = some ⟨5, 0⟩
      ∧ lookup [("RUN1 - A", ["run/S.json"])]
          (prepend_runid "RUN1" "undetermined") = none := by
  have h := c9_undetermined_named_sample_amended
    ⟨"run", "S.json", some ⟨"RUN1", [⟨1, 5, [⟨"A", 4, [⟨2⟩]⟩, ⟨"undetermined", 9, [⟨1⟩]⟩]⟩]⟩⟩
    ⟨"RUN1", [⟨1, 5, [⟨"A", 4, [⟨2⟩]⟩, ⟨"undetermined", 9, [⟨1⟩]⟩]⟩]⟩
    ⟨1, 5, [⟨"A", 4, [⟨2⟩]⟩, ⟨"undetermined", 9, [⟨1⟩]⟩]⟩
    [⟨"A", 4, [⟨2⟩]⟩] ⟨"undetermined", 9, [⟨1⟩]⟩
    [("RUN1 - L1", ⟨13, 3, 5⟩)]
    [("RUN1 - A", ⟨4, 2⟩), ("RUN1 - undetermined", ⟨5, 0⟩)]
    [("RUN1 - A", ["run/S.json"])]
    rfl rfl rfl rfl (by decide) (by decide) (by decide)
  exact ⟨h.2.2.2.2.2.2 (by decide), h.2.2.2.1, h.2.2.2.2.1⟩

end Bcl2Fastq
